import Mathlib

/-!
Verification development for the ponder indexing engine.

The definitions below are a shallow embedding of the core of the indexing
engine: the checkpoint algebra, the interval algebra, the sync store query
and deletion operations, the sync gateway checkpoint reducer, and the
indexing scheduler state transitions.  Definitions that embed functions of
the source are translated from the source; definitions for parts of the
repository whose code is not available (the checkpoint and interval utility
modules and the sync gateway service) are modelled from the specification
and carry a doc comment saying so.
-/

/-- Checkpoint: a 4-tuple totally ordering events across chains.
Modelled from the spec: tuple (blockTimestamp, chainId, blockNumber,
logIndex); total order is lexicographic in that field order. -/
structure Cp where
  blockTimestamp : Nat
  chainId : Nat
  blockNumber : Nat
  logIndex : Nat
  deriving DecidableEq, Repr

/-- Modelled from the spec: strict lexicographic order on checkpoints. -/
def cpLt (a b : Cp) : Prop :=
  a.blockTimestamp < b.blockTimestamp ∨
    (a.blockTimestamp = b.blockTimestamp ∧
      (a.chainId < b.chainId ∨
        (a.chainId = b.chainId ∧
          (a.blockNumber < b.blockNumber ∨
            (a.blockNumber = b.blockNumber ∧ a.logIndex < b.logIndex)))))

/-- Modelled from the spec: reflexive lexicographic order on checkpoints. -/
def cpLe (a b : Cp) : Prop := cpLt a b ∨ a = b

instance (a b : Cp) : Decidable (cpLt a b) := by unfold cpLt; infer_instance

instance (a b : Cp) : Decidable (cpLe a b) := by unfold cpLe; infer_instance

theorem cpLe_refl (a : Cp) : cpLe a a := Or.inr rfl

theorem cpLt_iff (a b : Cp) : cpLt a b ↔ cpLe a b ∧ ¬ cpLe b a := by
  rcases a with ⟨t1, c1, n1, l1⟩
  rcases b with ⟨t2, c2, n2, l2⟩
  simp only [cpLe, cpLt, Cp.mk.injEq]
  constructor
  · intro h
    constructor
    · exact Or.inl h
    · intro h2
      rcases h2 with h2 | h2 <;> omega
  · intro h
    rcases h with ⟨h1, h2⟩
    rcases h1 with h1 | h1
    · exact h1
    · exfalso; apply h2; right; omega

theorem cpLe_trans {a b c : Cp} (h1 : cpLe a b) (h2 : cpLe b c) : cpLe a c := by
  rcases a with ⟨t1, c1, n1, l1⟩
  rcases b with ⟨t2, c2, n2, l2⟩
  rcases c with ⟨t3, c3, n3, l3⟩
  simp only [cpLe, cpLt, Cp.mk.injEq] at *
  rcases h1 with h1 | h1 <;> rcases h2 with h2 | h2 <;> omega

theorem cpLe_total (a b : Cp) : cpLe a b ∨ cpLe b a := by
  rcases a with ⟨t1, c1, n1, l1⟩
  rcases b with ⟨t2, c2, n2, l2⟩
  simp only [cpLe, cpLt, Cp.mk.injEq]
  omega

theorem cpLe_antisymm {a b : Cp} (h1 : cpLe a b) (h2 : cpLe b a) : a = b := by
  rcases a with ⟨t1, c1, n1, l1⟩
  rcases b with ⟨t2, c2, n2, l2⟩
  simp only [cpLe, cpLt, Cp.mk.injEq] at *
  rcases h1 with h1 | h1 <;> rcases h2 with h2 | h2 <;> omega

theorem not_cpLt {a b : Cp} : ¬ cpLt a b ↔ cpLe b a := by
  rcases a with ⟨t1, c1, n1, l1⟩
  rcases b with ⟨t2, c2, n2, l2⟩
  simp only [cpLe, cpLt, Cp.mk.injEq]
  omega

theorem cpLt_of_lt_of_le {a b c : Cp} (h1 : cpLt a b) (h2 : cpLe b c) : cpLt a c := by
  rcases h2 with h2 | h2
  · rcases a with ⟨t1, c1, n1, l1⟩
    rcases b with ⟨t2, c2, n2, l2⟩
    rcases c with ⟨t3, c3, n3, l3⟩
    simp only [cpLt, Cp.mk.injEq] at *
    omega
  · exact h2 ▸ h1

theorem cpLt_of_le_of_lt {a b c : Cp} (h1 : cpLe a b) (h2 : cpLt b c) : cpLt a c := by
  rcases h1 with h1 | h1
  · rcases a with ⟨t1, c1, n1, l1⟩
    rcases b with ⟨t2, c2, n2, l2⟩
    rcases c with ⟨t3, c3, n3, l3⟩
    simp only [cpLt, Cp.mk.injEq] at *
    omega
  · exact h1 ▸ h2

theorem cpLe_of_lt {a b : Cp} (h : cpLt a b) : cpLe a b := Or.inl h

/-- Modelled from the spec: zeroCheckpoint has all zeros. -/
def zeroCheckpoint : Cp := ⟨0, 0, 0, 0⟩

/-- Modelled from the spec: maximum of two checkpoints in the total order. -/
def checkpointMax (a b : Cp) : Cp := if cpLe a b then b else a

/-- Modelled from the spec: minimum of two checkpoints in the total order. -/
def checkpointMin (a b : Cp) : Cp := if cpLe a b then a else b

theorem checkpointMin_le_left (a b : Cp) : cpLe (checkpointMin a b) a := by
  unfold checkpointMin
  split
  · exact cpLe_refl a
  · rcases cpLe_total a b with h | h
    · contradiction
    · exact h

theorem checkpointMin_le_right (a b : Cp) : cpLe (checkpointMin a b) b := by
  unfold checkpointMin
  split
  · assumption
  · exact cpLe_refl b

theorem le_checkpointMin {a b c : Cp} (h1 : cpLe c a) (h2 : cpLe c b) :
    cpLe c (checkpointMin a b) := by
  unfold checkpointMin
  split <;> assumption

theorem le_checkpointMax_left (a b : Cp) : cpLe a (checkpointMax a b) := by
  unfold checkpointMax
  split
  · assumption
  · exact cpLe_refl a

theorem le_checkpointMax_right (a b : Cp) : cpLe b (checkpointMax a b) := by
  unfold checkpointMax
  split
  · exact cpLe_refl b
  · rcases cpLe_total a b with h | h
    · contradiction
    · exact h

theorem checkpointMax_le {a b c : Cp} (h1 : cpLe a c) (h2 : cpLe b c) :
    cpLe (checkpointMax a b) c := by
  unfold checkpointMax
  split <;> assumption

theorem checkpointMin_mono {a b a' b' : Cp} (h1 : cpLe a a') (h2 : cpLe b b') :
    cpLe (checkpointMin a b) (checkpointMin a' b') := by
  apply le_checkpointMin
  · exact cpLe_trans (checkpointMin_le_left a b) h1
  · exact cpLe_trans (checkpointMin_le_right a b) h2

theorem zeroCheckpoint_le (a : Cp) : cpLe zeroCheckpoint a := by
  rcases a with ⟨t, c, n, l⟩
  simp only [cpLe, cpLt, zeroCheckpoint, Cp.mk.injEq]
  omega

/-- isCheckpointGreaterThan, translated from the checkpoint utility interface:
`a > b` in the total order. -/
def isCheckpointGreaterThan (a b : Cp) : Prop := cpLt b a

/-- isCheckpointGreaterThanOrEqualTo: `a ≥ b` in the total order. -/
def isCheckpointGreaterThanOrEqualTo (a b : Cp) : Prop := cpLe b a

instance (a b : Cp) : Decidable (isCheckpointGreaterThan a b) := by
  unfold isCheckpointGreaterThan; infer_instance

instance (a b : Cp) : Decidable (isCheckpointGreaterThanOrEqualTo a b) := by
  unfold isCheckpointGreaterThanOrEqualTo; infer_instance

/-! ### Interval algebra

The interval utility module is not part of the available source; the
definitions are modelled from the spec: closed-closed `[startBlock, endBlock]`
intervals over block numbers, `intervalUnion` returns the minimal sorted list
of disjoint intervals covering the input, `intervalIntersectionMany` returns
the pointwise intersection. -/

/-- An interval row value: closed-closed `[startBlock, endBlock]`. -/
abbrev Iv : Type := Nat × Nat

/-- Lexicographic order on intervals, used to canonically sort them. -/
def intervalLe (a b : Iv) : Prop := a.1 < b.1 ∨ (a.1 = b.1 ∧ a.2 ≤ b.2)

instance (a b : Iv) : Decidable (intervalLe a b) := by unfold intervalLe; infer_instance

instance : IsTotal Iv intervalLe := ⟨by intro a b; unfold intervalLe; omega⟩

instance : IsTrans Iv intervalLe := ⟨by intro a b c; unfold intervalLe; omega⟩

instance : IsAntisymm Iv intervalLe :=
  ⟨by intro a b h1 h2; unfold intervalLe at *; rcases a; rcases b; simp_all; omega⟩

instance : IsRefl Iv intervalLe := ⟨by intro a; unfold intervalLe; omega⟩

/-- Merge pass over a start-sorted interval list: adjacent or overlapping
intervals are coalesced.  Structural recursion on an explicit fuel so that
concrete evaluation reduces in the kernel. -/
def mergeIntervalsGo : Nat → List Iv → List Iv
  | 0, l => l
  | _ + 1, [] => []
  | _ + 1, [x] => [x]
  | fuel + 1, x :: y :: rest =>
    if y.1 ≤ x.2 + 1 then mergeIntervalsGo fuel ((x.1, max x.2 y.2) :: rest)
    else x :: mergeIntervalsGo fuel (y :: rest)

/-- Modelled from the spec: `intervalUnion(xs)` returns the minimal sorted
list of disjoint intervals covering `xs`. -/
def intervalUnion (xs : List Iv) : List Iv :=
  mergeIntervalsGo xs.length (List.insertionSort intervalLe xs)

/-- Pointwise intersection of two interval lists. -/
def intervalIntersection (as bs : List Iv) : List Iv :=
  intervalUnion (as.flatMap (fun a =>
    bs.filterMap (fun b =>
      let lo := max a.1 b.1
      let hi := min a.2 b.2
      if lo ≤ hi then some (lo, hi) else none)))

/-- Modelled from the spec: `intervalIntersectionMany(xss)` returns the
pointwise intersection of the lists. -/
def intervalIntersectionMany (xss : List (List Iv)) : List Iv :=
  match xss with
  | [] => []
  | xs :: rest => rest.foldl intervalIntersection (intervalUnion xs)

example : intervalUnion [(3, 5), (0, 1), (2, 4)] = [(0, 5)] := by decide

example : intervalUnion [(0, 1), (3, 4)] = [(0, 1), (3, 4)] := by decide

example : intervalIntersectionMany [[(0, 100)], [(50, 200)]] = [(50, 100)] := by decide

/-- Decidable coverage test: does some interval of the list contain `n`. -/
def covers : List Iv → Nat → Bool
  | [], _ => false
  | p :: rest, n => (decide (p.1 ≤ n) && decide (n ≤ p.2)) || covers rest n

/-- Well-formed interval list: every interval has start at most end. -/
def ivWf (xs : List Iv) : Prop := ∀ p ∈ xs, p.1 ≤ p.2

/-- Successive intervals are separated by a gap of at least one block. -/
def ivGapped (xs : List Iv) : Prop := List.Chain' (fun a b : Iv => a.2 + 1 < b.1) xs

/-- Nondecreasing start blocks. -/
def ivStartSorted (xs : List Iv) : Prop := List.Pairwise (fun a b : Iv => a.1 ≤ b.1) xs

theorem covers_iff_mem (xs : List Iv) (n : Nat) :
    covers xs n = true ↔ ∃ p ∈ xs, p.1 ≤ n ∧ n ≤ p.2 := by
  induction xs with
  | nil => simp [covers]
  | cons p rest ih => simp [covers, ih]

theorem covers_of_perm {xs ys : List Iv} (h : xs.Perm ys) (n : Nat) :
    covers xs n = covers ys n := by
  rcases h1 : covers ys n with _ | _
  · rcases h2 : covers xs n with _ | _
    · rfl
    · rw [covers_iff_mem] at h2
      rcases h2 with ⟨p, hp, hb⟩
      have : covers ys n = true := (covers_iff_mem ys n).mpr ⟨p, h.mem_iff.mp hp, hb⟩
      rw [this] at h1
      exact h1
  · rw [covers_iff_mem] at h1
    rcases h1 with ⟨p, hp, hb⟩
    exact (covers_iff_mem xs n).mpr ⟨p, h.mem_iff.mpr hp, hb⟩

theorem covers_append (xs ys : List Iv) (n : Nat) :
    covers (xs ++ ys) n = (covers xs n || covers ys n) := by
  induction xs with
  | nil => simp [covers]
  | cons p rest ih => simp [covers, ih, Bool.or_assoc]

theorem mergeIntervalsGo_covers (fuel : Nat) :
    ∀ l : List Iv, ivStartSorted l → ∀ n, covers (mergeIntervalsGo fuel l) n = covers l n := by
  induction fuel with
  | zero => intro l _ n; rfl
  | succ fuel ih =>
    intro l hs n
    match l with
    | [] => rfl
    | [x] => rfl
    | x :: y :: rest =>
      rw [mergeIntervalsGo]
      rcases List.pairwise_cons.mp hs with ⟨hx, hs'⟩
      rcases List.pairwise_cons.mp hs' with ⟨hy, hrest⟩
      have hxy : x.1 ≤ y.1 := hx y (List.mem_cons_self y rest)
      split
      · case isTrue hmerge =>
        have hsorted' : ivStartSorted ((x.1, max x.2 y.2) :: rest) := by
          apply List.pairwise_cons.mpr
          refine ⟨?_, hrest⟩
          intro p hp
          exact hx p (List.mem_cons_of_mem y hp)
        rw [ih _ hsorted' n]
        have hbool : ∀ a b : Bool, (a = true ↔ b = true) → a = b := by decide
        apply hbool
        rcases h1 : covers rest n <;>
          simp only [covers, h1, Bool.or_eq_true, Bool.and_eq_true, decide_eq_true_eq,
            Bool.or_false, Bool.or_true] <;>
          omega
      · case isFalse hnm =>
        have hsorted' : ivStartSorted (y :: rest) := hs'
        rw [show covers (x :: mergeIntervalsGo fuel (y :: rest)) n =
            ((decide (x.1 ≤ n) && decide (n ≤ x.2)) || covers (mergeIntervalsGo fuel (y :: rest)) n)
          from rfl]
        rw [ih _ hsorted' n]
        rfl

theorem mergeIntervalsGo_head (fuel : Nat) :
    ∀ (x : Iv) (xs : List Iv), ∃ z zs, mergeIntervalsGo fuel (x :: xs) = z :: zs ∧ z.1 = x.1 := by
  induction fuel with
  | zero => intro x xs; exact ⟨x, xs, rfl, rfl⟩
  | succ fuel ih =>
    intro x xs
    match xs with
    | [] => exact ⟨x, [], rfl, rfl⟩
    | y :: rest =>
      rw [mergeIntervalsGo]
      split
      · rcases ih (x.1, max x.2 y.2) rest with ⟨z, zs, heq, hz⟩
        exact ⟨z, zs, heq, hz⟩
      · exact ⟨x, mergeIntervalsGo fuel (y :: rest), rfl, rfl⟩

theorem mergeIntervalsGo_gapped (fuel : Nat) :
    ∀ l : List Iv, l.length ≤ fuel + 1 → ivStartSorted l →
      ivGapped (mergeIntervalsGo fuel l) := by
  induction fuel with
  | zero =>
    intro l hlen _
    match l with
    | [] => exact List.chain'_nil
    | [x] => exact List.chain'_singleton x
    | x :: y :: rest => simp at hlen
  | succ fuel ih =>
    intro l hlen hs
    match l with
    | [] => exact List.chain'_nil
    | [x] => exact List.chain'_singleton x
    | x :: y :: rest =>
      rw [mergeIntervalsGo]
      rcases List.pairwise_cons.mp hs with ⟨hx, hs'⟩
      split
      · case isTrue hmerge =>
        apply ih
        · simp at hlen ⊢; omega
        · apply List.pairwise_cons.mpr
          refine ⟨?_, (List.pairwise_cons.mp hs').2⟩
          intro p hp
          exact hx p (List.mem_cons_of_mem y hp)
      · case isFalse hnm =>
        have hout := ih (y :: rest) (by simp at hlen ⊢; omega) hs'
        rcases mergeIntervalsGo_head fuel y rest with ⟨z, zs, heq, hz⟩
        rw [heq]
        rw [heq] at hout
        apply List.chain'_cons.mpr
        exact ⟨by omega, hout⟩

theorem mergeIntervalsGo_wf (fuel : Nat) :
    ∀ l : List Iv, ivWf l → ivWf (mergeIntervalsGo fuel l) := by
  induction fuel with
  | zero => intro l h; exact h
  | succ fuel ih =>
    intro l hwf
    match l with
    | [] => exact hwf
    | [x] => exact hwf
    | x :: y :: rest =>
      rw [mergeIntervalsGo]
      have hx : x.1 ≤ x.2 := hwf x (by simp)
      have hy : y.1 ≤ y.2 := hwf y (by simp)
      split
      · apply ih
        intro p hp
        rcases List.mem_cons.mp hp with h | h
        · subst h; simp; omega
        · exact hwf p (by simp [h])
      · intro p hp
        rcases List.mem_cons.mp hp with h | h
        · subst h; exact hx
        · exact ih (y :: rest) (fun q hq => hwf q (by simp at hq ⊢; tauto)) p h

theorem intervalUnion_covers (xs : List Iv) (n : Nat) :
    covers (intervalUnion xs) n = covers xs n := by
  unfold intervalUnion
  have hsorted : (List.insertionSort intervalLe xs).Sorted intervalLe :=
    List.sorted_insertionSort intervalLe xs
  have hss : ivStartSorted (List.insertionSort intervalLe xs) := by
    apply hsorted.imp
    intro a b hab
    unfold intervalLe at hab
    omega
  rw [mergeIntervalsGo_covers _ _ hss n]
  exact covers_of_perm (List.perm_insertionSort intervalLe xs) n

theorem intervalUnion_gapped (xs : List Iv) : ivGapped (intervalUnion xs) := by
  unfold intervalUnion
  have hsorted : (List.insertionSort intervalLe xs).Sorted intervalLe :=
    List.sorted_insertionSort intervalLe xs
  have hss : ivStartSorted (List.insertionSort intervalLe xs) := by
    apply hsorted.imp
    intro a b hab
    unfold intervalLe at hab
    omega
  apply mergeIntervalsGo_gapped
  · rw [(List.perm_insertionSort intervalLe xs).length_eq]
    omega
  · exact hss

theorem intervalUnion_wf {xs : List Iv} (h : ivWf xs) : ivWf (intervalUnion xs) := by
  unfold intervalUnion
  apply mergeIntervalsGo_wf
  intro p hp
  exact h p ((List.perm_insertionSort intervalLe xs).mem_iff.mp hp)

theorem gapped_wf_lb {x : Iv} {xs : List Iv} (hg : ivGapped (x :: xs)) (hw : ivWf (x :: xs)) :
    ∀ p ∈ xs, x.2 + 1 < p.1 := by
  induction xs generalizing x with
  | nil => intro p hp; simp at hp
  | cons y zs ih =>
    rcases List.chain'_cons.mp hg with ⟨hxy, hg'⟩
    have hwy : ivWf (y :: zs) := fun q hq => hw q (List.mem_cons_of_mem x hq)
    have hy : y.1 ≤ y.2 := hwy y (List.mem_cons_self y zs)
    intro p hp
    rcases List.mem_cons.mp hp with h | h
    · subst h; exact hxy
    · have := ih hg' hwy p h
      omega

theorem covers_lb {y : Iv} {ys : List Iv} (hg : ivGapped (y :: ys)) (hw : ivWf (y :: ys))
    {n : Nat} (hc : covers (y :: ys) n = true) : y.1 ≤ n := by
  simp only [covers, Bool.or_eq_true, Bool.and_eq_true, decide_eq_true_eq] at hc
  rcases hc with h | h
  · exact h.1
  · rcases (covers_iff_mem ys n).mp h with ⟨p, hp, hb⟩
    have h1 := gapped_wf_lb hg hw p hp
    have h2 : y.1 ≤ y.2 := hw y (List.mem_cons_self y ys)
    omega

theorem covers_gap {x : Iv} {xs : List Iv} (hg : ivGapped (x :: xs)) (hw : ivWf (x :: xs)) :
    covers (x :: xs) (x.2 + 1) = false := by
  simp only [covers, Bool.or_eq_false_iff, Bool.and_eq_false_iff]
  constructor
  · right; simp
  · rcases h : covers xs (x.2 + 1) with _ | _
    · rfl
    · rcases (covers_iff_mem xs (x.2 + 1)).mp h with ⟨p, hp, hb⟩
      have := gapped_wf_lb hg hw p hp
      omega

theorem canonical_unique :
    ∀ (A B : List Iv), ivGapped A → ivGapped B → ivWf A → ivWf B →
      (∀ n, covers A n = covers B n) → A = B := by
  intro A
  induction A with
  | nil =>
    intro B _ hgB _ hwB hcov
    match B with
    | [] => rfl
    | y :: ys =>
      exfalso
      have h1 : covers (y :: ys) y.1 = true := by
        simp only [covers, Bool.or_eq_true, Bool.and_eq_true, decide_eq_true_eq]
        left
        exact ⟨Nat.le_refl _, hwB y (List.mem_cons_self y ys)⟩
      have h2 := hcov y.1
      rw [h1] at h2
      simp only [covers] at h2
      exact Bool.false_ne_true h2
  | cons x xs ih =>
    intro B hgA hgB hwA hwB hcov
    match B with
    | [] =>
      exfalso
      have h1 : covers (x :: xs) x.1 = true := by
        simp only [covers, Bool.or_eq_true, Bool.and_eq_true, decide_eq_true_eq]
        left
        exact ⟨Nat.le_refl _, hwA x (List.mem_cons_self x xs)⟩
      have h2 := hcov x.1
      rw [h1] at h2
      simp only [covers] at h2
      exact Bool.false_ne_true h2.symm
    | y :: ys =>
      have hwx : x.1 ≤ x.2 := hwA x (List.mem_cons_self x xs)
      have hwy : y.1 ≤ y.2 := hwB y (List.mem_cons_self y ys)
      have hcx : covers (x :: xs) x.1 = true := by
        simp only [covers, Bool.or_eq_true, Bool.and_eq_true, decide_eq_true_eq]
        left
        exact ⟨Nat.le_refl _, hwx⟩
      have hcy : covers (y :: ys) y.1 = true := by
        simp only [covers, Bool.or_eq_true, Bool.and_eq_true, decide_eq_true_eq]
        left
        exact ⟨Nat.le_refl _, hwy⟩
      have hyx : y.1 ≤ x.1 := covers_lb hgB hwB ((hcov x.1) ▸ hcx)
      have hxy : x.1 ≤ y.1 := covers_lb hgA hwA ((hcov y.1).symm ▸ hcy)
      have hstart : x.1 = y.1 := Nat.le_antisymm hxy hyx
      have hgapx : covers (x :: xs) (x.2 + 1) = false := covers_gap hgA hwA
      have hgapy : covers (y :: ys) (y.2 + 1) = false := covers_gap hgB hwB
      have hend : x.2 = y.2 := by
        rcases Nat.lt_trichotomy x.2 y.2 with h | h | h
        · exfalso
          have : covers (y :: ys) (x.2 + 1) = true := by
            simp only [covers, Bool.or_eq_true, Bool.and_eq_true, decide_eq_true_eq]
            left
            omega
          rw [← hcov (x.2 + 1)] at this
          rw [hgapx] at this
          exact Bool.false_ne_true this
        · exact h
        · exfalso
          have : covers (x :: xs) (y.2 + 1) = true := by
            simp only [covers, Bool.or_eq_true, Bool.and_eq_true, decide_eq_true_eq]
            left
            omega
          rw [hcov (y.2 + 1)] at this
          rw [hgapy] at this
          exact Bool.false_ne_true this
      have hxyeq : x = y := Prod.ext hstart hend
      subst hxyeq
      have hgA' : ivGapped xs := (List.chain'_cons'.mp hgA).2
      have hgB' : ivGapped ys := (List.chain'_cons'.mp hgB).2
      have hwA' : ivWf xs := fun q hq => hwA q (List.mem_cons_of_mem x hq)
      have hwB' : ivWf ys := fun q hq => hwB q (List.mem_cons_of_mem x hq)
      have hcov' : ∀ n, covers xs n = covers ys n := by
        intro n
        rcases le_or_lt n x.2 with hn | hn
        · have hA0 : covers xs n = false := by
            rcases h : covers xs n with _ | _
            · rfl
            · rcases (covers_iff_mem xs n).mp h with ⟨p, hp, hb⟩
              have := gapped_wf_lb hgA hwA p hp
              omega
          have hB0 : covers ys n = false := by
            rcases h : covers ys n with _ | _
            · rfl
            · rcases (covers_iff_mem ys n).mp h with ⟨p, hp, hb⟩
              have := gapped_wf_lb hgB hwB p hp
              omega
          rw [hA0, hB0]
        · have := hcov n
          simp only [covers] at this
          have hhd : (decide (x.1 ≤ n) && decide (n ≤ x.2)) = false := by
            simp only [Bool.and_eq_false_iff, decide_eq_false_iff_not]
            right
            omega
          rw [hhd] at this
          simpa using this
      rw [ih ys hgA' hgB' hwA' hwB' hcov']

theorem intervalUnion_eq_of_covers {xs ys : List Iv} (hwx : ivWf xs) (hwy : ivWf ys)
    (hcov : ∀ n, covers xs n = covers ys n) : intervalUnion xs = intervalUnion ys := by
  apply canonical_unique
  · exact intervalUnion_gapped xs
  · exact intervalUnion_gapped ys
  · exact intervalUnion_wf hwx
  · exact intervalUnion_wf hwy
  · intro n
    rw [intervalUnion_covers, intervalUnion_covers]
    exact hcov n

/-! ### Sync store: getLogEvents (C1)

Embedding of `PostgresSyncStore.getLogEvents` and its helper
`buildCheckpointCmprs`.  A joined row of the query (a log joined with its
block) is reduced to the fields the checkpoint filter and ordering read,
plus the block hash that distinguishes sibling-block rows.  The log filter
and factory predicates (including the eventSelector clause) are abstracted
into a boolean predicate parameter: they only shrink the row set and play
no role in the checkpoint-window or ordering behavior. -/

/-- A row of the `getLogEvents` join: a log with its block's fields. -/
structure EventRow where
  blockTimestamp : Nat
  chainId : Nat
  blockNumber : Nat
  logIndex : Nat
  blockHash : Nat
  deriving DecidableEq, Repr

/-- A checkpoint bound as passed to `buildCheckpointCmprs`: the logIndex may
be absent, in which case the comparison is at block granularity. -/
structure CheckpointQ where
  blockTimestamp : Nat
  chainId : Nat
  blockNumber : Nat
  logIndex : Option Nat
  deriving DecidableEq, Repr

/-- The comparison operator argument of `buildCheckpointCmprs`. -/
inductive CmpOp where
  | gt
  | ge
  | lt
  | le
  deriving DecidableEq, Repr

/-- The strict `operand` of `buildCheckpointCmprs`: `>` for the gt family,
`<` for the lt family, applied as `column OP value`. -/
def cmpOperand (op : CmpOp) (column value : Nat) : Bool :=
  match op with
  | .gt | .ge => decide (value < column)
  | .lt | .le => decide (column < value)

/-- The `operandOrEquals` of `buildCheckpointCmprs`. -/
def cmpOperandOrEquals (op : CmpOp) (column value : Nat) : Bool :=
  cmpOperand op column value || decide (column = value)

/-- `isInclusive`: whether the operator ends in `=`. -/
def cmpIsInclusive (op : CmpOp) : Bool :=
  match op with
  | .ge | .le => true
  | .gt | .lt => false

/-- Translated from `buildCheckpointCmprs` in the sync store: the SQL
expression filtering rows against a checkpoint bound, at block granularity
when the checkpoint's logIndex is absent and down to the log index
otherwise. -/
def buildCheckpointCmprs (op : CmpOp) (c : CheckpointQ) (r : EventRow) : Bool :=
  match c.logIndex with
  | none =>
    cmpOperandOrEquals op r.blockTimestamp c.blockTimestamp &&
      (cmpOperand op r.blockTimestamp c.blockTimestamp ||
        (cmpOperandOrEquals op r.chainId c.chainId &&
          (cmpOperand op r.chainId c.chainId ||
            (if cmpIsInclusive op then cmpOperandOrEquals op r.blockNumber c.blockNumber
             else cmpOperand op r.blockNumber c.blockNumber))))
  | some li =>
    cmpOperandOrEquals op r.blockTimestamp c.blockTimestamp &&
      (cmpOperand op r.blockTimestamp c.blockTimestamp ||
        (cmpOperandOrEquals op r.chainId c.chainId &&
          (cmpOperand op r.chainId c.chainId ||
            (cmpOperandOrEquals op r.blockNumber c.blockNumber &&
              (cmpOperand op r.blockNumber c.blockNumber ||
                (if cmpIsInclusive op then cmpOperandOrEquals op r.logIndex li
                 else cmpOperand op r.logIndex li))))))

/-- The checkpoint of a returned event, as the scheduler reconstructs it. -/
def rowCp (r : EventRow) : Cp :=
  ⟨r.blockTimestamp, r.chainId, r.blockNumber, r.logIndex⟩

/-- The ORDER BY key of the `getLogEvents` query:
`(block.timestamp, chainId, block.number, logIndex)` ascending. -/
def rowLe (a b : EventRow) : Prop := cpLe (rowCp a) (rowCp b)

instance (a b : EventRow) : Decidable (rowLe a b) := by unfold rowLe; infer_instance

instance : IsTotal EventRow rowLe := ⟨fun a b => cpLe_total (rowCp a) (rowCp b)⟩

instance : IsTrans EventRow rowLe := ⟨fun _ _ _ h1 h2 => cpLe_trans h1 h2⟩

/-- The page returned by `getLogEvents`. -/
structure LogEventsPage where
  events : List EventRow
  hasNextPage : Bool
  lastCheckpointInPage : Option Cp
  deriving DecidableEq, Repr

/-- Translated from `PostgresSyncStore.getLogEvents`: filter the joined rows
by the filter predicates and the two checkpoint bounds, order by
`(timestamp, chainId, blockNumber, logIndex)` ascending, fetch `limit + 1`
rows, and drop the last row (reporting a next page) when `limit + 1` rows
were fetched. -/
def getLogEvents (rows : List EventRow) (matchesFilter : EventRow → Bool)
    (fromC toC : CheckpointQ) (limit : Nat) : LogEventsPage :=
  let filtered := rows.filter (fun r =>
    matchesFilter r && buildCheckpointCmprs .gt fromC r && buildCheckpointCmprs .le toC r)
  let sorted := List.insertionSort rowLe filtered
  let page := sorted.take (limit + 1)
  if page.length = limit + 1 then
    let events := page.dropLast
    { events := events
      hasNextPage := true
      lastCheckpointInPage := events.getLast?.map rowCp }
  else
    { events := page, hasNextPage := false, lastCheckpointInPage := none }

/-- The spec's reading of the lower bound: the event lies strictly after the
checkpoint, at block granularity when the logIndex is absent. -/
def specAfterFrom (c : CheckpointQ) (r : EventRow) : Prop :=
  match c.logIndex with
  | some li => cpLt ⟨c.blockTimestamp, c.chainId, c.blockNumber, li⟩ (rowCp r)
  | none =>
    c.blockTimestamp < r.blockTimestamp ∨
      (c.blockTimestamp = r.blockTimestamp ∧
        (c.chainId < r.chainId ∨ (c.chainId = r.chainId ∧ c.blockNumber < r.blockNumber)))

/-- The spec's reading of the upper bound: the event lies at or before the
checkpoint, at block granularity when the logIndex is absent. -/
def specAtOrBeforeTo (c : CheckpointQ) (r : EventRow) : Prop :=
  match c.logIndex with
  | some li => cpLe (rowCp r) ⟨c.blockTimestamp, c.chainId, c.blockNumber, li⟩
  | none =>
    r.blockTimestamp < c.blockTimestamp ∨
      (r.blockTimestamp = c.blockTimestamp ∧
        (r.chainId < c.chainId ∨
          (r.chainId = c.chainId ∧ r.blockNumber ≤ c.blockNumber)))

instance (c : CheckpointQ) (r : EventRow) : Decidable (specAfterFrom c r) :=
  match c with
  | ⟨ct, cc, cn, none⟩ => by unfold specAfterFrom; simp only; infer_instance
  | ⟨ct, cc, cn, some li⟩ => by unfold specAfterFrom; simp only; infer_instance

instance (c : CheckpointQ) (r : EventRow) : Decidable (specAtOrBeforeTo c r) :=
  match c with
  | ⟨ct, cc, cn, none⟩ => by unfold specAtOrBeforeTo; simp only; infer_instance
  | ⟨ct, cc, cn, some li⟩ => by unfold specAtOrBeforeTo; simp only; infer_instance

theorem buildCheckpointCmprs_gt_iff (c : CheckpointQ) (r : EventRow) :
    buildCheckpointCmprs .gt c r = true ↔ specAfterFrom c r := by
  rcases c with ⟨ct, cc, cn, cl⟩
  rcases cl with _ | li <;>
    simp [buildCheckpointCmprs, specAfterFrom, cmpOperandOrEquals, cmpOperand,
      cmpIsInclusive, rowCp, cpLt] <;>
    omega

theorem buildCheckpointCmprs_le_iff (c : CheckpointQ) (r : EventRow) :
    buildCheckpointCmprs .le c r = true ↔ specAtOrBeforeTo c r := by
  rcases c with ⟨ct, cc, cn, cl⟩
  rcases cl with _ | li <;>
    simp [buildCheckpointCmprs, specAtOrBeforeTo, cmpOperandOrEquals, cmpOperand,
      cmpIsInclusive, rowCp, cpLe, cpLt, Cp.mk.injEq] <;>
    omega

theorem getLogEvents_mem_filtered {rows : List EventRow} {matchesFilter : EventRow → Bool}
    {fromC toC : CheckpointQ} {limit : Nat} {r : EventRow}
    (h : r ∈ (getLogEvents rows matchesFilter fromC toC limit).events) :
    r ∈ rows.filter (fun r =>
      matchesFilter r && buildCheckpointCmprs .gt fromC r && buildCheckpointCmprs .le toC r) := by
  simp only [getLogEvents] at h
  have hmem : r ∈ List.insertionSort rowLe (rows.filter (fun r =>
      matchesFilter r && buildCheckpointCmprs .gt fromC r &&
        buildCheckpointCmprs .le toC r)) := by
    split at h
    · simp only at h
      exact (List.take_sublist _ _).subset ((List.dropLast_sublist _).subset h)
    · simp only at h
      exact (List.take_sublist _ _).subset h
  exact (List.perm_insertionSort rowLe _).subset hmem

theorem getLogEvents_pairwise {rows : List EventRow} {matchesFilter : EventRow → Bool}
    {fromC toC : CheckpointQ} {limit : Nat} {R : EventRow → EventRow → Prop}
    (h : (List.insertionSort rowLe (rows.filter (fun r =>
      matchesFilter r && buildCheckpointCmprs .gt fromC r &&
        buildCheckpointCmprs .le toC r))).Pairwise R) :
    (getLogEvents rows matchesFilter fromC toC limit).events.Pairwise R := by
  simp only [getLogEvents]
  split
  · simp only
    exact h.sublist ((List.dropLast_sublist _).trans (List.take_sublist _ _))
  · simp only
    exact h.sublist (List.take_sublist _ _)

/-- C1 (amended): every event returned by `getLogEvents` lies strictly after
`fromCheckpoint` and at or before `toCheckpoint` (block-level granularity when
a bound's logIndex is absent), and the returned sequence is nondecreasing in
the checkpoint order; it is strictly increasing provided no two stored rows
share the same `(blockTimestamp, chainId, blockNumber, logIndex)` key. -/
theorem getLogEvents_window_and_order (rows : List EventRow)
    (matchesFilter : EventRow → Bool) (fromC toC : CheckpointQ) (limit : Nat)
    (hdistinct : rows.Pairwise (fun a b => rowCp a ≠ rowCp b)) :
    (∀ r ∈ (getLogEvents rows matchesFilter fromC toC limit).events,
        specAfterFrom fromC r ∧ specAtOrBeforeTo toC r) ∧
      (getLogEvents rows matchesFilter fromC toC limit).events.Pairwise rowLe ∧
      (getLogEvents rows matchesFilter fromC toC limit).events.Pairwise
        (fun a b => cpLt (rowCp a) (rowCp b)) := by
  set filtered := rows.filter (fun r =>
    matchesFilter r && buildCheckpointCmprs .gt fromC r && buildCheckpointCmprs .le toC r)
    with hf
  refine ⟨?_, ?_, ?_⟩
  · intro r hr
    have hmem := getLogEvents_mem_filtered hr
    rw [← hf] at hmem
    have hpred := List.of_mem_filter hmem
    simp only [Bool.and_eq_true] at hpred
    exact ⟨(buildCheckpointCmprs_gt_iff fromC r).mp hpred.1.2,
      (buildCheckpointCmprs_le_iff toC r).mp hpred.2⟩
  · apply getLogEvents_pairwise
    exact List.sorted_insertionSort rowLe filtered
  · apply getLogEvents_pairwise
    have hsorted : (List.insertionSort rowLe filtered).Pairwise rowLe :=
      List.sorted_insertionSort rowLe filtered
    have hne0 : filtered.Pairwise (fun a b => rowCp a ≠ rowCp b) :=
      hdistinct.sublist (List.filter_sublist rows)
    have hne : (List.insertionSort rowLe filtered).Pairwise
        (fun a b => rowCp a ≠ rowCp b) := by
      refine ((List.perm_insertionSort rowLe filtered).symm.pairwise_iff ?_).mp hne0
      intro a b hab
      exact fun he => hab he.symm
    apply (hsorted.and hne).imp
    intro a b hab
    rcases hab.1 with h | h
    · exact h
    · exact absurd h hab.2

/-- Concrete sibling-block rows with identical checkpoint keys. -/
def dupRow1 : EventRow := ⟨1, 1, 1, 0, 1⟩

/-- The same checkpoint key as `dupRow1` under a different block hash. -/
def dupRow2 : EventRow := ⟨1, 1, 1, 0, 2⟩

/-- C1 as stated is false: with two stored sibling-block log rows sharing the
same `(blockTimestamp, chainId, blockNumber, logIndex)` key, `getLogEvents`
returns a page that is not strictly increasing in the checkpoint order. -/
theorem getLogEvents_not_strictly_increasing :
    ¬ (getLogEvents [dupRow1, dupRow2] (fun _ => true) ⟨0, 0, 0, some 0⟩
        ⟨2, 0, 0, none⟩ 5).events.Pairwise (fun a b => cpLt (rowCp a) (rowCp b)) := by
  decide

/-- Witness for C1: the amended theorem applied at a concrete store. -/
theorem getLogEvents_window_and_order_witness :
    (∀ r ∈ (getLogEvents [⟨5, 1, 50, 3, 7⟩, ⟨4, 1, 40, 0, 6⟩, ⟨9, 1, 90, 2, 8⟩]
        (fun _ => true) ⟨4, 1, 40, some 0⟩ ⟨9, 1, 90, none⟩ 1).events,
        specAfterFrom ⟨4, 1, 40, some 0⟩ r ∧ specAtOrBeforeTo ⟨9, 1, 90, none⟩ r) ∧
      (getLogEvents [⟨5, 1, 50, 3, 7⟩, ⟨4, 1, 40, 0, 6⟩, ⟨9, 1, 90, 2, 8⟩]
        (fun _ => true) ⟨4, 1, 40, some 0⟩ ⟨9, 1, 90, none⟩ 1).events.Pairwise rowLe ∧
      (getLogEvents [⟨5, 1, 50, 3, 7⟩, ⟨4, 1, 40, 0, 6⟩, ⟨9, 1, 90, 2, 8⟩]
        (fun _ => true) ⟨4, 1, 40, some 0⟩ ⟨9, 1, 90, none⟩ 1).events.Pairwise
        (fun a b => cpLt (rowCp a) (rowCp b)) :=
  getLogEvents_window_and_order _ _ _ _ _ (by decide)

/-! ### Sync gateway (C2)

The sync gateway service source is not available (only its tests are); the
state machine is modelled from the spec, section 4.2: per-chain historical,
realtime and finality checkpoints plus an `isHistoricalComplete` flag, a
pure reducer `min over chains of perChainBest`, and an emission rule that
emits `newCheckpoint` exactly when the recomputed value strictly exceeds the
previously emitted one.  The model is validated below against the traces of
the gateway tests that ship with the source. -/

/-- Per-chain state of the sync gateway.  Modelled from the spec: all
checkpoints default to `zeroCheckpoint` and the flag to false. -/
structure ChainState where
  historicalCheckpoint : Cp
  realtimeCheckpoint : Cp
  finalityCheckpoint : Cp
  isHistoricalComplete : Bool
  deriving DecidableEq, Repr

/-- Initial per-chain state. -/
def initialChainState : ChainState := ⟨zeroCheckpoint, zeroCheckpoint, zeroCheckpoint, false⟩

/-- The sync gateway state: the configured chain ids, the per-chain states,
the current (last emitted) global checkpoints, and the traces of emitted
`newCheckpoint` and `newFinalityCheckpoint` events. -/
structure GatewayState where
  chainIds : List Nat
  chainStates : Nat → ChainState
  checkpoint : Cp
  finalityCheckpoint : Cp
  emittedCheckpoints : List Cp
  emittedFinalityCheckpoints : List Cp

/-- Initial gateway state for a list of networks. -/
def initialGatewayState (chainIds : List Nat) : GatewayState :=
  ⟨chainIds, fun _ => initialChainState, zeroCheckpoint, zeroCheckpoint, [], []⟩

/-- Modelled from the spec:
`perChainBest[i] = isHistoricalComplete[i] ? max(historical[i], realtime[i]) : historical[i]`. -/
def perChainBest (cs : ChainState) : Cp :=
  if cs.isHistoricalComplete then checkpointMax cs.historicalCheckpoint cs.realtimeCheckpoint
  else cs.historicalCheckpoint

/-- Minimum of a nonempty list of checkpoints (head seeded fold). -/
def checkpointMinOver : List Cp → Cp
  | [] => zeroCheckpoint
  | c :: cs => cs.foldl checkpointMin c

/-- Modelled from the spec: the global checkpoint reducer,
`min over all chains of perChainBest[i]`. -/
def recomputeCheckpoint (s : GatewayState) : Cp :=
  checkpointMinOver (s.chainIds.map (fun i => perChainBest (s.chainStates i)))

/-- Modelled from the spec: the global finality reducer,
`min over all chains of finalityCheckpoint[i]`. -/
def recomputeFinalityCheckpoint (s : GatewayState) : Cp :=
  checkpointMinOver (s.chainIds.map (fun i => (s.chainStates i).finalityCheckpoint))

/-- Recompute the global checkpoint and emit `newCheckpoint` iff it strictly
advanced past the previously emitted value. -/
def emitIfAdvanced (s : GatewayState) : GatewayState :=
  let c := recomputeCheckpoint s
  if cpLt s.checkpoint c then
    { s with checkpoint := c, emittedCheckpoints := s.emittedCheckpoints ++ [c] }
  else s

/-- Modelled from the spec: `handleNewHistoricalCheckpoint(c)`: if
`c > historicalCheckpoint[c.chainId]`, set it; then recompute and emit iff
strictly advanced. -/
def handleNewHistoricalCheckpoint (s : GatewayState) (c : Cp) : GatewayState :=
  let cs := s.chainStates c.chainId
  let s' :=
    if cpLt cs.historicalCheckpoint c then
      { s with chainStates := fun i =>
          if i = c.chainId then { cs with historicalCheckpoint := c } else s.chainStates i }
    else s
  emitIfAdvanced s'

/-- Modelled from the spec: `handleHistoricalSyncComplete({chainId})`: mark
the chain complete; recompute and emit iff strictly advanced. -/
def handleHistoricalSyncComplete (s : GatewayState) (chainId : Nat) : GatewayState :=
  let s' := { s with chainStates := fun i =>
    if i = chainId then { s.chainStates i with isHistoricalComplete := true }
    else s.chainStates i }
  emitIfAdvanced s'

/-- Modelled from the spec: `handleNewRealtimeCheckpoint(c)`: same as the
historical handler, but into the realtime slot. -/
def handleNewRealtimeCheckpoint (s : GatewayState) (c : Cp) : GatewayState :=
  let cs := s.chainStates c.chainId
  let s' :=
    if cpLt cs.realtimeCheckpoint c then
      { s with chainStates := fun i =>
          if i = c.chainId then { cs with realtimeCheckpoint := c } else s.chainStates i }
    else s
  emitIfAdvanced s'

/-- Modelled from the spec: `handleNewFinalityCheckpoint(c)`: update the
chain's finality slot if strictly greater, recompute the global finality
checkpoint and emit `newFinalityCheckpoint` iff it advanced. -/
def handleNewFinalityCheckpoint (s : GatewayState) (c : Cp) : GatewayState :=
  let cs := s.chainStates c.chainId
  let s' :=
    if cpLt cs.finalityCheckpoint c then
      { s with chainStates := fun i =>
          if i = c.chainId then { cs with finalityCheckpoint := c } else s.chainStates i }
    else s
  let f := recomputeFinalityCheckpoint s'
  if cpLt s'.finalityCheckpoint f then
    { s' with
      finalityCheckpoint := f
      emittedFinalityCheckpoints := s'.emittedFinalityCheckpoints ++ [f] }
  else s'

/-- A checkpoint event fed to the sync gateway. -/
inductive GatewayEvent where
  | newHistorical (c : Cp)
  | historicalComplete (chainId : Nat)
  | newRealtime (c : Cp)
  | newFinality (c : Cp)
  deriving DecidableEq, Repr

/-- One gateway step. -/
def gatewayStep (s : GatewayState) (e : GatewayEvent) : GatewayState :=
  match e with
  | .newHistorical c => handleNewHistoricalCheckpoint s c
  | .historicalComplete chainId => handleHistoricalSyncComplete s chainId
  | .newRealtime c => handleNewRealtimeCheckpoint s c
  | .newFinality c => handleNewFinalityCheckpoint s c

/-- Run the gateway over a sequence of checkpoint events. -/
def gatewayRun (chainIds : List Nat) (events : List GatewayEvent) : GatewayState :=
  events.foldl gatewayStep (initialGatewayState chainIds)

theorem checkpointMin_self (c : Cp) : checkpointMin c c = c := by
  unfold checkpointMin
  split <;> rfl

theorem checkpointMax_mono {a b a' b' : Cp} (h1 : cpLe a a') (h2 : cpLe b b') :
    cpLe (checkpointMax a b) (checkpointMax a' b') := by
  apply checkpointMax_le
  · exact cpLe_trans h1 (le_checkpointMax_left a' b')
  · exact cpLe_trans h2 (le_checkpointMax_right a' b')

theorem foldl_checkpointMin_mono {ids : List Nat} {f g : Nat → Cp}
    (h : ∀ i ∈ ids, cpLe (f i) (g i)) :
    ∀ {a b : Cp}, cpLe a b →
      cpLe ((ids.map f).foldl checkpointMin a) ((ids.map g).foldl checkpointMin b) := by
  induction ids with
  | nil => intro a b hab; exact hab
  | cons i rest ih =>
    intro a b hab
    simp only [List.map_cons, List.foldl_cons]
    apply ih
    · intro j hj
      exact h j (List.mem_cons_of_mem i hj)
    · exact checkpointMin_mono hab (h i (List.mem_cons_self i rest))

theorem recomputeCheckpoint_mono {s s' : GatewayState} (hids : s'.chainIds = s.chainIds)
    (h : ∀ i ∈ s.chainIds, cpLe (perChainBest (s.chainStates i)) (perChainBest (s'.chainStates i))) :
    cpLe (recomputeCheckpoint s) (recomputeCheckpoint s') := by
  unfold recomputeCheckpoint checkpointMinOver
  rw [hids]
  match hids2 : s.chainIds with
  | [] => exact cpLe_refl _
  | i :: rest =>
    simp only [List.map_cons]
    apply foldl_checkpointMin_mono
    · intro j hj
      exact h j (by rw [hids2]; exact List.mem_cons_of_mem i hj)
    · exact h i (by rw [hids2]; exact List.mem_cons_self i rest)

/-- The gateway invariant: the stored global checkpoint is the reducer value,
it equals the last emitted `newCheckpoint` (or zero before any emission), and
the emission trace is strictly increasing. -/
def gatewayInv (s : GatewayState) : Prop :=
  s.checkpoint = recomputeCheckpoint s ∧
    s.checkpoint = s.emittedCheckpoints.getLastD zeroCheckpoint ∧
    List.Chain' cpLt s.emittedCheckpoints

theorem emitIfAdvanced_inv {s : GatewayState}
    (hcp : s.checkpoint = s.emittedCheckpoints.getLastD zeroCheckpoint)
    (hchain : List.Chain' cpLt s.emittedCheckpoints)
    (hle : cpLe s.checkpoint (recomputeCheckpoint s)) :
    gatewayInv (emitIfAdvanced s) := by
  unfold gatewayInv
  by_cases hlt : cpLt s.checkpoint (recomputeCheckpoint s)
  · simp only [emitIfAdvanced, if_pos hlt]
    refine ⟨rfl, ?_, ?_⟩
    · simp [List.getLastD_concat]
    · rw [List.chain'_append]
      refine ⟨hchain, List.chain'_singleton _, ?_⟩
      intro x hx y hy
      simp only [List.head?_cons, Option.mem_def, Option.some.injEq] at hy
      subst hy
      have hlast : s.emittedCheckpoints.getLastD zeroCheckpoint = x := by
        cases hgl : s.emittedCheckpoints.getLast? with
        | none => rw [hgl] at hx; simp at hx
        | some z =>
          simp only [Option.mem_def, hgl, Option.some.injEq] at hx
          subst hx
          simp [List.getLastD_eq_getLast?, hgl]
      rw [← hlast, ← hcp]
      exact hlt
  · simp only [emitIfAdvanced, if_neg hlt]
    have heq : s.checkpoint = recomputeCheckpoint s :=
      cpLe_antisymm hle (not_cpLt.mp hlt)
    exact ⟨heq, hcp, hchain⟩

theorem perChainBest_update_historical {cs : ChainState} {c : Cp}
    (h : cpLe cs.historicalCheckpoint c) :
    cpLe (perChainBest cs) (perChainBest { cs with historicalCheckpoint := c }) := by
  cases hb : cs.isHistoricalComplete <;> simp only [perChainBest, hb, if_true, if_false]
  · exact h
  · exact checkpointMax_mono h (cpLe_refl _)

theorem perChainBest_update_realtime {cs : ChainState} {c : Cp}
    (h : cpLe cs.realtimeCheckpoint c) :
    cpLe (perChainBest cs) (perChainBest { cs with realtimeCheckpoint := c }) := by
  cases hb : cs.isHistoricalComplete <;> simp only [perChainBest, hb, if_true, if_false]
  · exact cpLe_refl _
  · exact checkpointMax_mono (cpLe_refl _) h

theorem perChainBest_update_complete (cs : ChainState) :
    cpLe (perChainBest cs) (perChainBest { cs with isHistoricalComplete := true }) := by
  cases hb : cs.isHistoricalComplete <;> simp only [perChainBest, hb, if_true, if_false]
  · exact le_checkpointMax_left _ _
  · exact cpLe_refl _

theorem handleNewHistoricalCheckpoint_inv {s : GatewayState} (h : gatewayInv s) (c : Cp) :
    gatewayInv (handleNewHistoricalCheckpoint s c) := by
  obtain ⟨h1, h2, h3⟩ := h
  unfold handleNewHistoricalCheckpoint
  by_cases hlt : cpLt (s.chainStates c.chainId).historicalCheckpoint c
  · simp only [if_pos hlt]
    refine emitIfAdvanced_inv ?_ ?_ ?_
    · exact h2
    · exact h3
    · show cpLe s.checkpoint (recomputeCheckpoint _)
      rw [h1]
      apply recomputeCheckpoint_mono
      · rfl
      · intro i _
        by_cases hi : i = c.chainId
        · simp only [hi, if_pos rfl]
          exact perChainBest_update_historical (cpLe_of_lt hlt)
        · simp only [if_neg hi]
          exact cpLe_refl _
  · simp only [if_neg hlt]
    refine emitIfAdvanced_inv h2 h3 ?_
    rw [← h1]
    exact cpLe_refl _

theorem handleNewRealtimeCheckpoint_inv {s : GatewayState} (h : gatewayInv s) (c : Cp) :
    gatewayInv (handleNewRealtimeCheckpoint s c) := by
  obtain ⟨h1, h2, h3⟩ := h
  unfold handleNewRealtimeCheckpoint
  by_cases hlt : cpLt (s.chainStates c.chainId).realtimeCheckpoint c
  · simp only [if_pos hlt]
    refine emitIfAdvanced_inv ?_ ?_ ?_
    · exact h2
    · exact h3
    · show cpLe s.checkpoint (recomputeCheckpoint _)
      rw [h1]
      apply recomputeCheckpoint_mono
      · rfl
      · intro i _
        by_cases hi : i = c.chainId
        · simp only [hi, if_pos rfl]
          exact perChainBest_update_realtime (cpLe_of_lt hlt)
        · simp only [if_neg hi]
          exact cpLe_refl _
  · simp only [if_neg hlt]
    refine emitIfAdvanced_inv h2 h3 ?_
    rw [← h1]
    exact cpLe_refl _

theorem handleHistoricalSyncComplete_inv {s : GatewayState} (h : gatewayInv s) (chainId : Nat) :
    gatewayInv (handleHistoricalSyncComplete s chainId) := by
  obtain ⟨h1, h2, h3⟩ := h
  unfold handleHistoricalSyncComplete
  refine emitIfAdvanced_inv ?_ ?_ ?_
  · exact h2
  · exact h3
  · show cpLe s.checkpoint (recomputeCheckpoint _)
    rw [h1]
    apply recomputeCheckpoint_mono
    · rfl
    · intro i _
      by_cases hi : i = chainId
      · simp only [hi, if_pos rfl]
        exact perChainBest_update_complete _
      · simp only [if_neg hi]
        exact cpLe_refl _

theorem handleNewFinalityCheckpoint_inv {s : GatewayState} (h : gatewayInv s) (c : Cp) :
    gatewayInv (handleNewFinalityCheckpoint s c) := by
  obtain ⟨h1, h2, h3⟩ := h
  have hrec : ∀ f : Nat → Cp,
      recomputeCheckpoint
        { s with chainStates := fun i =>
            if i = c.chainId then { s.chainStates c.chainId with finalityCheckpoint := f i }
            else s.chainStates i } = recomputeCheckpoint s := by
    intro f
    unfold recomputeCheckpoint
    congr 1
    apply List.map_congr_left
    intro i _
    by_cases hi : i = c.chainId
    · simp only [hi, if_pos rfl]
      cases hb : (s.chainStates c.chainId).isHistoricalComplete <;>
        simp [perChainBest, hb]
    · simp [if_neg hi]
  unfold handleNewFinalityCheckpoint
  by_cases hlt : cpLt (s.chainStates c.chainId).finalityCheckpoint c <;>
    [simp only [if_pos hlt]; simp only [if_neg hlt]]
  · split
    · refine ⟨?_, h2, h3⟩
      show s.checkpoint = _
      rw [h1]
      exact (hrec (fun _ => c)).symm
    · refine ⟨?_, h2, h3⟩
      show s.checkpoint = _
      rw [h1]
      exact (hrec (fun _ => c)).symm
  · split
    · exact ⟨h1, h2, h3⟩
    · exact ⟨h1, h2, h3⟩

theorem gatewayStep_inv {s : GatewayState} (h : gatewayInv s) (e : GatewayEvent) :
    gatewayInv (gatewayStep s e) := by
  cases e with
  | newHistorical c => exact handleNewHistoricalCheckpoint_inv h c
  | historicalComplete chainId => exact handleHistoricalSyncComplete_inv h chainId
  | newRealtime c => exact handleNewRealtimeCheckpoint_inv h c
  | newFinality c => exact handleNewFinalityCheckpoint_inv h c

theorem foldl_checkpointMin_const (c : Cp) :
    ∀ l : List Nat, (l.map (fun _ => c)).foldl checkpointMin c = c := by
  intro l
  induction l with
  | nil => rfl
  | cons i rest ih =>
    simp only [List.map_cons, List.foldl_cons, checkpointMin_self]
    exact ih

theorem initialGatewayState_inv {chainIds : List Nat} (hne : chainIds ≠ []) :
    gatewayInv (initialGatewayState chainIds) := by
  refine ⟨?_, rfl, List.chain'_nil⟩
  show zeroCheckpoint = recomputeCheckpoint (initialGatewayState chainIds)
  unfold recomputeCheckpoint initialGatewayState checkpointMinOver
  match chainIds, hne with
  | i :: rest, _ =>
    simp only [List.map_cons]
    have : perChainBest initialChainState = zeroCheckpoint := rfl
    rw [this]
    exact (foldl_checkpointMin_const zeroCheckpoint rest).symm

/-- C2: over any sequence of sync gateway checkpoint events, the stored
global checkpoint always equals `min over chains of perChainBest` (with
`perChainBest = isHistoricalComplete ? max(historical, realtime) :
historical`), the stored value is the last emitted `newCheckpoint` (zero
before any emission), and the emitted `newCheckpoint` trace is strictly
increasing in the checkpoint order. -/
theorem syncGateway_reducer_and_monotone (chainIds : List Nat)
    (events : List GatewayEvent) (hne : chainIds ≠ []) :
    (gatewayRun chainIds events).checkpoint =
        recomputeCheckpoint (gatewayRun chainIds events) ∧
      (gatewayRun chainIds events).checkpoint =
        (gatewayRun chainIds events).emittedCheckpoints.getLastD zeroCheckpoint ∧
      List.Chain' cpLt (gatewayRun chainIds events).emittedCheckpoints := by
  have hstep : ∀ (l : List GatewayEvent) (s : GatewayState),
      gatewayInv s → gatewayInv (l.foldl gatewayStep s) := by
    intro l
    induction l with
    | nil => intro s h; exact h
    | cons e rest ih => intro s h; exact ih _ (gatewayStep_inv h e)
  exact hstep events _ (initialGatewayState_inv hne)

/-- Witness for C2: the reducer and monotonicity theorem applied at the trace
of the gateway test "handleNewHistoricalCheckpoint does not emit new
checkpoint if not best" (chains 1 and 10, timestamps 10, 5, 15). -/
theorem syncGateway_reducer_and_monotone_witness :
    (gatewayRun [1, 10] [.newHistorical ⟨10, 1, 0, 0⟩, .newHistorical ⟨5, 10, 0, 0⟩,
        .newHistorical ⟨15, 1, 0, 0⟩]).checkpoint =
        recomputeCheckpoint (gatewayRun [1, 10] [.newHistorical ⟨10, 1, 0, 0⟩,
          .newHistorical ⟨5, 10, 0, 0⟩, .newHistorical ⟨15, 1, 0, 0⟩]) ∧
      (gatewayRun [1, 10] [.newHistorical ⟨10, 1, 0, 0⟩, .newHistorical ⟨5, 10, 0, 0⟩,
        .newHistorical ⟨15, 1, 0, 0⟩]).checkpoint =
        (gatewayRun [1, 10] [.newHistorical ⟨10, 1, 0, 0⟩, .newHistorical ⟨5, 10, 0, 0⟩,
          .newHistorical ⟨15, 1, 0, 0⟩]).emittedCheckpoints.getLastD zeroCheckpoint ∧
      List.Chain' cpLt (gatewayRun [1, 10] [.newHistorical ⟨10, 1, 0, 0⟩,
        .newHistorical ⟨5, 10, 0, 0⟩, .newHistorical ⟨15, 1, 0, 0⟩]).emittedCheckpoints :=
  syncGateway_reducer_and_monotone [1, 10] _ (by decide)

/-- The model reproduces the gateway test "handleNewHistoricalCheckpoint does
not emit new checkpoint if not best": only `(5, chain 10)` is emitted. -/
theorem syncGateway_matches_notBest_test :
    (gatewayRun [1, 10] [.newHistorical ⟨10, 1, 0, 0⟩, .newHistorical ⟨5, 10, 0, 0⟩,
      .newHistorical ⟨15, 1, 0, 0⟩]).emittedCheckpoints = [⟨5, 10, 0, 0⟩] := by
  decide

/-- The model reproduces the gateway test "handleNewRealtimeCheckpoint emits
new checkpoint if historical sync is complete": the emissions are
`(10, chain 1)`, `(20, chain 1)`, `(25, chain 1)`. -/
theorem syncGateway_matches_realtime_test :
    (gatewayRun [1, 10] [.newRealtime ⟨20, 1, 0, 0⟩, .newRealtime ⟨22, 10, 0, 0⟩,
      .newHistorical ⟨12, 10, 0, 0⟩, .newHistorical ⟨10, 1, 0, 0⟩,
      .historicalComplete 10, .historicalComplete 1,
      .newRealtime ⟨27, 10, 0, 0⟩, .newRealtime ⟨25, 1, 0, 0⟩]).emittedCheckpoints =
      [⟨10, 1, 0, 0⟩, ⟨20, 1, 0, 0⟩, ⟨25, 1, 0, 0⟩] := by
  decide

/-! ### Indexing scheduler (C3, C4, C5, C6)

Embedding of the per-function state of `IndexingService` and the state
transitions of `buildIndexingFunctionStates` (reset seeding),
`loadIndexingFunctionTasks` (batch load), the success path of
`executeLogEventTask` (task completion), `enqueueLogEventTasks` (dispatch)
and `handleReorg`.  A buffered `LogEventTask` is represented by its
checkpoint; the `eventsProcessed` marker that the loader puts on the last
task of a batch only drives logging and metrics and is omitted. -/

/-- Per-indexing-function state, translated from the
`indexingFunctionStates` record of `IndexingService`. -/
structure FnState where
  parents : List Nat
  isSelfDependent : Bool
  tasksProcessedToCheckpoint : Cp
  tasksLoadedFromCheckpoint : Cp
  tasksLoadedToCheckpoint : Cp
  loadedTasks : List Cp
  firstEventCheckpoint : Option Cp
  lastEventCheckpoint : Option Cp
  deriving DecidableEq, Repr

/-- Translated from `buildIndexingFunctionStates`: seed the three checkpoints
from the persisted `toCheckpoint` (or zero), restore `firstEventCheckpoint`
from the persisted `fromCheckpoint`, and start with an empty buffer. -/
def buildIndexingFunctionState (parents : List Nat) (isSelfDependent : Bool)
    (persistedTo : Option Cp) (persistedFrom : Option Cp) : FnState :=
  { parents := parents
    isSelfDependent := isSelfDependent
    tasksProcessedToCheckpoint := persistedTo.getD zeroCheckpoint
    tasksLoadedFromCheckpoint := persistedTo.getD zeroCheckpoint
    tasksLoadedToCheckpoint := persistedTo.getD zeroCheckpoint
    loadedTasks := []
    firstEventCheckpoint := persistedFrom
    lastEventCheckpoint := none }

/-- An event of a `getLogEvents` page as the loader consumes it: its
checkpoint and whether it decodes under the function's ABI event. -/
structure PageEvent where
  checkpoint : Cp
  decodes : Bool
  deriving DecidableEq, Repr

/-- A `getLogEvents` result as consumed by `loadIndexingFunctionTasks`. -/
structure EventsPage where
  events : List PageEvent
  hasNextPage : Bool
  lastCheckpointInPage : Cp
  lastCheckpoint : Option Cp
  deriving DecidableEq, Repr

/-- Translated from `loadIndexingFunctionTasks`: skip when already loaded to
the gateway checkpoint and a last event checkpoint is known; otherwise append
the decodable events to the buffer and update `tasksLoadedToCheckpoint`,
`tasksLoadedFromCheckpoint`, `firstEventCheckpoint` and
`lastEventCheckpoint` exactly as the source does. -/
def loadIndexingFunctionTasks (s : FnState) (gatewayCheckpoint : Cp)
    (page : EventsPage) : FnState :=
  let fromC := s.tasksLoadedToCheckpoint
  let toC := gatewayCheckpoint
  if isCheckpointGreaterThanOrEqualTo fromC toC ∧ s.lastEventCheckpoint ≠ none then s
  else
    let newTasks := (page.events.filter (fun e => e.decodes)).map (fun e => e.checkpoint)
    let tasks := s.loadedTasks ++ newTasks
    let previousLength := s.loadedTasks.length
    let loadedTo := if page.hasNextPage then page.lastCheckpointInPage else toC
    let loadedFrom :=
      if tasks.length > 0 then
        (if previousLength = 0 then tasks.headD zeroCheckpoint
         else s.tasksLoadedFromCheckpoint)
      else loadedTo
    let firstEvent :=
      if tasks.length > 0 then
        (if s.firstEventCheckpoint = none then tasks.head? else s.firstEventCheckpoint)
      else s.firstEventCheckpoint
    let lastEvent :=
      match page.lastCheckpoint, s.lastEventCheckpoint with
      | none, none => some toC
      | some l, none => some l
      | some l, some prev => some (checkpointMax l prev)
      | none, some prev => some prev
    { s with
      loadedTasks := tasks
      tasksLoadedToCheckpoint := loadedTo
      tasksLoadedFromCheckpoint := loadedFrom
      firstEventCheckpoint := firstEvent
      lastEventCheckpoint := lastEvent }

/-- Translated from the success path of `executeLogEventTask`: raise
`tasksProcessedToCheckpoint` to the task's checkpoint and reset
`tasksLoadedFromCheckpoint` to the buffer head (or to
`tasksLoadedToCheckpoint` when the buffer is empty). -/
def completeLogEventTask (s : FnState) (taskCheckpoint : Cp) : FnState :=
  { s with
    tasksProcessedToCheckpoint :=
      checkpointMax s.tasksProcessedToCheckpoint taskCheckpoint
    tasksLoadedFromCheckpoint :=
      match s.loadedTasks with
      | [] => s.tasksLoadedToCheckpoint
      | t :: _ => t }

/-- Translated from the clamping loop of `handleReorg`: each of the three
checkpoints is set to `safeCheckpoint` when it exceeds it. -/
def clampStateToSafe (safe : Cp) (s : FnState) : FnState :=
  { s with
    tasksProcessedToCheckpoint :=
      if isCheckpointGreaterThan s.tasksProcessedToCheckpoint safe then safe
      else s.tasksProcessedToCheckpoint
    tasksLoadedFromCheckpoint :=
      if isCheckpointGreaterThan s.tasksLoadedFromCheckpoint safe then safe
      else s.tasksLoadedFromCheckpoint
    tasksLoadedToCheckpoint :=
      if isCheckpointGreaterThan s.tasksLoadedToCheckpoint safe then safe
      else s.tasksLoadedToCheckpoint }

/-- The three-checkpoint chain of the spec:
`tasksProcessedToCheckpoint ≤ tasksLoadedFromCheckpoint ≤ tasksLoadedToCheckpoint`. -/
def checkpointChain (s : FnState) : Prop :=
  cpLe s.tasksProcessedToCheckpoint s.tasksLoadedFromCheckpoint ∧
    cpLe s.tasksLoadedFromCheckpoint s.tasksLoadedToCheckpoint

instance (s : FnState) : Decidable (checkpointChain s) := by
  unfold checkpointChain; infer_instance

/-- What `getLogEvents` guarantees about a page for the window
`(fromC, toC]`: events in the window, nondecreasing, and
`lastCheckpointInPage` is the checkpoint of the last returned event whenever
`hasNextPage` is set. -/
def pageConsistent (fromC toC : Cp) (page : EventsPage) : Prop :=
  (∀ e ∈ page.events, cpLt fromC e.checkpoint ∧ cpLe e.checkpoint toC) ∧
    page.events.Pairwise (fun a b => cpLe a.checkpoint b.checkpoint) ∧
    (page.hasNextPage = true →
      ∃ e, page.events.getLast? = some e ∧ page.lastCheckpointInPage = e.checkpoint)

theorem mem_of_getLast? {α : Type} {l : List α} {z : α} (h : l.getLast? = some z) : z ∈ l := by
  rcases l with _ | ⟨a, t⟩
  · simp at h
  · rw [List.getLast?_eq_getLast _ (by simp)] at h
    have hz : (a :: t).getLast (by simp) = z := Option.some.inj h
    rw [← hz]
    exact List.getLast_mem _

theorem pairwise_le_getLast {l : List PageEvent}
    (h : l.Pairwise (fun a b => cpLe a.checkpoint b.checkpoint)) {z : PageEvent}
    (hz : l.getLast? = some z) : ∀ e ∈ l, cpLe e.checkpoint z.checkpoint := by
  induction l with
  | nil => simp at hz
  | cons a t ih =>
    rcases List.pairwise_cons.mp h with ⟨ha, ht⟩
    cases t with
    | nil =>
      simp only [List.getLast?_singleton, Option.some.injEq] at hz
      subst hz
      intro e he
      simp only [List.mem_singleton] at he
      subst he
      exact cpLe_refl _
    | cons b t' =>
      rw [List.getLast?_cons_cons] at hz
      intro e he
      rcases List.mem_cons.mp he with he | he
      · subst he
        exact ha z (mem_of_getLast? hz)
      · exact ih ht hz e he

theorem loadIndexingFunctionTasks_chain (s : FnState) (gw : Cp) (page : EventsPage)
    (hchain : checkpointChain s)
    (hpage : pageConsistent s.tasksLoadedToCheckpoint gw page)
    (hgw : cpLe s.tasksLoadedToCheckpoint gw) :
    checkpointChain (loadIndexingFunctionTasks s gw page) := by
  obtain ⟨h1, h2⟩ := hchain
  obtain ⟨hin, hsorted, hnext⟩ := hpage
  unfold loadIndexingFunctionTasks
  by_cases hguard : isCheckpointGreaterThanOrEqualTo s.tasksLoadedToCheckpoint gw ∧
      s.lastEventCheckpoint ≠ none
  · simp only [if_pos hguard]
    exact ⟨h1, h2⟩
  · simp only [if_neg hguard]
    have hF1 : cpLe s.tasksLoadedToCheckpoint
        (if page.hasNextPage then page.lastCheckpointInPage else gw) := by
      by_cases hnp : page.hasNextPage
      · simp only [if_pos hnp]
        rcases hnext hnp with ⟨e, he, hcp⟩
        rw [hcp]
        exact cpLe_of_lt (hin e (mem_of_getLast? he)).1
      · simp only [if_neg hnp]
        exact hgw
    constructor
    · show cpLe s.tasksProcessedToCheckpoint _
      by_cases ht : (s.loadedTasks ++
          (page.events.filter (fun e => e.decodes)).map (fun e => e.checkpoint)).length > 0
      · simp only [if_pos ht]
        by_cases hprev : s.loadedTasks.length = 0
        · simp only [if_pos hprev]
          have hold : s.loadedTasks = [] := List.length_eq_zero.mp hprev
          have hne : (page.events.filter (fun e => e.decodes)).map
              (fun e => e.checkpoint) ≠ [] := by
            intro hcon
            rw [hold, hcon] at ht
            simp at ht
          obtain ⟨hd, tl, hmt⟩ := List.exists_cons_of_ne_nil hne
          have hhd : hd ∈ (page.events.filter (fun e => e.decodes)).map
              (fun e => e.checkpoint) := by
            rw [hmt]
            exact List.mem_cons_self _ _
          rcases List.mem_map.mp hhd with ⟨pe, hpe, hpeq⟩
          have hpev : pe ∈ page.events := List.mem_of_mem_filter hpe
          have hlt : cpLt s.tasksLoadedToCheckpoint hd := by
            rw [← hpeq]
            exact (hin pe hpev).1
          rw [hold]
          simp only [List.nil_append, hmt, List.headD_cons]
          exact cpLe_of_lt (cpLt_of_le_of_lt (cpLe_trans h1 h2) hlt)
        · simp only [if_neg hprev]
          exact h1
      · simp only [if_neg ht]
        exact cpLe_trans (cpLe_trans h1 h2) hF1
    · show cpLe _ (if page.hasNextPage then page.lastCheckpointInPage else gw)
      by_cases ht : (s.loadedTasks ++
          (page.events.filter (fun e => e.decodes)).map (fun e => e.checkpoint)).length > 0
      · simp only [if_pos ht]
        by_cases hprev : s.loadedTasks.length = 0
        · simp only [if_pos hprev]
          have hold : s.loadedTasks = [] := List.length_eq_zero.mp hprev
          have hne : (page.events.filter (fun e => e.decodes)).map
              (fun e => e.checkpoint) ≠ [] := by
            intro hcon
            rw [hold, hcon] at ht
            simp at ht
          obtain ⟨hd, tl, hmt⟩ := List.exists_cons_of_ne_nil hne
          have hhd : hd ∈ (page.events.filter (fun e => e.decodes)).map
              (fun e => e.checkpoint) := by
            rw [hmt]
            exact List.mem_cons_self _ _
          rcases List.mem_map.mp hhd with ⟨pe, hpe, hpeq⟩
          have hpev : pe ∈ page.events := List.mem_of_mem_filter hpe
          rw [hold]
          simp only [List.nil_append, hmt, List.headD_cons]
          by_cases hnp : page.hasNextPage
          · simp only [if_pos hnp]
            rcases hnext hnp with ⟨z, hz, hcpz⟩
            rw [hcpz, ← hpeq]
            exact pairwise_le_getLast hsorted hz pe hpev
          · simp only [if_neg hnp]
            rw [← hpeq]
            exact (hin pe hpev).2
        · simp only [if_neg hprev]
          exact cpLe_trans h2 hF1
      · simp only [if_neg ht]
        exact cpLe_refl _

theorem completeLogEventTask_chain (s : FnState) (taskCheckpoint : Cp)
    (hchain : checkpointChain s)
    (htask : cpLe taskCheckpoint s.tasksLoadedToCheckpoint)
    (hbuf : ∀ t ∈ s.loadedTasks,
      cpLe taskCheckpoint t ∧ cpLe s.tasksLoadedFromCheckpoint t ∧
        cpLe t s.tasksLoadedToCheckpoint) :
    checkpointChain (completeLogEventTask s taskCheckpoint) := by
  obtain ⟨h1, h2⟩ := hchain
  unfold completeLogEventTask checkpointChain
  cases hbufc : s.loadedTasks with
  | nil =>
    simp only
    constructor
    · exact checkpointMax_le (cpLe_trans h1 h2) htask
    · exact cpLe_refl _
  | cons t0 rest =>
    simp only
    have hb := hbuf t0 (by rw [hbufc]; exact List.mem_cons_self _ _)
    constructor
    · exact checkpointMax_le (cpLe_trans h1 hb.2.1) hb.1
    · exact hb.2.2

theorem clampStateToSafe_chain (safe : Cp) (s : FnState)
    (hchain : checkpointChain s) : checkpointChain (clampStateToSafe safe s) := by
  obtain ⟨h1, h2⟩ := hchain
  unfold clampStateToSafe checkpointChain isCheckpointGreaterThan
  by_cases ha : cpLt safe s.tasksProcessedToCheckpoint
  · by_cases hb : cpLt safe s.tasksLoadedFromCheckpoint
    · by_cases hc : cpLt safe s.tasksLoadedToCheckpoint
      · simp only [if_pos ha, if_pos hb, if_pos hc]
        exact ⟨cpLe_refl _, cpLe_refl _⟩
      · exact absurd (cpLt_of_lt_of_le hb h2) hc
    · exact absurd (cpLt_of_lt_of_le ha h1) hb
  · by_cases hb : cpLt safe s.tasksLoadedFromCheckpoint
    · by_cases hc : cpLt safe s.tasksLoadedToCheckpoint
      · simp only [if_neg ha, if_pos hb, if_pos hc]
        exact ⟨not_cpLt.mp ha, cpLe_refl _⟩
      · exact absurd (cpLt_of_lt_of_le hb h2) hc
    · by_cases hc : cpLt safe s.tasksLoadedToCheckpoint
      · simp only [if_neg ha, if_neg hb, if_pos hc]
        exact ⟨h1, not_cpLt.mp hb⟩
      · simp only [if_neg ha, if_neg hb, if_neg hc]
        exact ⟨h1, h2⟩

theorem buildIndexingFunctionState_chain (parents : List Nat) (isSelfDependent : Bool)
    (persistedTo persistedFrom : Option Cp) :
    checkpointChain (buildIndexingFunctionState parents isSelfDependent
      persistedTo persistedFrom) :=
  ⟨cpLe_refl _, cpLe_refl _⟩

/-- C3 (amended): reset seeding establishes the chain
`tasksProcessedToCheckpoint ≤ tasksLoadedFromCheckpoint ≤
tasksLoadedToCheckpoint` and reorg clamping always preserves it; a task load
preserves it provided the gateway checkpoint at load time is at least the
state's `tasksLoadedToCheckpoint` (with the page as `getLogEvents` returns
it), and a task completion preserves it provided the completed task's
checkpoint and the buffered tasks lie between the state's loaded-from and
loaded-to checkpoints. -/
theorem indexingFunctionState_checkpoint_chain :
    (∀ (parents : List Nat) (sd : Bool) (pTo pFrom : Option Cp),
        checkpointChain (buildIndexingFunctionState parents sd pTo pFrom)) ∧
      (∀ (s : FnState) (gw : Cp) (page : EventsPage), checkpointChain s →
        pageConsistent s.tasksLoadedToCheckpoint gw page →
        cpLe s.tasksLoadedToCheckpoint gw →
        checkpointChain (loadIndexingFunctionTasks s gw page)) ∧
      (∀ (s : FnState) (taskCheckpoint : Cp), checkpointChain s →
        cpLe taskCheckpoint s.tasksLoadedToCheckpoint →
        (∀ t ∈ s.loadedTasks, cpLe taskCheckpoint t ∧
          cpLe s.tasksLoadedFromCheckpoint t ∧ cpLe t s.tasksLoadedToCheckpoint) →
        checkpointChain (completeLogEventTask s taskCheckpoint)) ∧
      (∀ (safe : Cp) (s : FnState), checkpointChain s →
        checkpointChain (clampStateToSafe safe s)) :=
  ⟨buildIndexingFunctionState_chain,
    loadIndexingFunctionTasks_chain,
    completeLogEventTask_chain,
    clampStateToSafe_chain⟩

/-- A function state seeded from persisted metadata at checkpoint
`(100, 1, 1000, 5)`, as after a restart. -/
def staleSeedState : FnState :=
  buildIndexingFunctionState [] false (some ⟨100, 1, 1000, 5⟩) none

/-- A gateway checkpoint that has not yet caught up to the persisted
checkpoint after the restart. -/
def staleGatewayCheckpoint : Cp := ⟨5, 1, 30, 0⟩

/-- The (empty) page `getLogEvents` returns over the empty window. -/
def emptyEventsPage : EventsPage := ⟨[], false, zeroCheckpoint, none⟩

/-- C3 as stated is false: a state seeded from persisted metadata satisfies
the chain, the empty page is exactly what `getLogEvents` yields for its
window, yet after one `loadIndexingFunctionTasks` call with the still-stale
gateway checkpoint the state has `tasksProcessedToCheckpoint >
tasksLoadedFromCheckpoint`. -/
theorem loadIndexingFunctionTasks_chain_counterexample :
    checkpointChain staleSeedState ∧
      pageConsistent staleSeedState.tasksLoadedToCheckpoint staleGatewayCheckpoint
        emptyEventsPage ∧
      ¬ checkpointChain
        (loadIndexingFunctionTasks staleSeedState staleGatewayCheckpoint
          emptyEventsPage) := by
  refine ⟨by decide, ⟨?_, ?_, ?_⟩, by decide⟩
  · intro e he
    simp [emptyEventsPage] at he
  · simp [emptyEventsPage]
  · intro h
    simp [emptyEventsPage] at h

/-- A one-event page for the witness load. -/
def witnessEventsPage : EventsPage :=
  ⟨[⟨⟨5, 1, 50, 0⟩, true⟩], false, zeroCheckpoint, some ⟨5, 1, 50, 0⟩⟩

/-- Witness for C3: the amended theorem applied at a zero-seeded state, a
gateway checkpoint ahead of it, a consistent one-event page, a completed
task, and a reorg clamp. -/
theorem indexingFunctionState_checkpoint_chain_witness :
    checkpointChain (buildIndexingFunctionState [] false none none) ∧
      checkpointChain (loadIndexingFunctionTasks
        (buildIndexingFunctionState [] false none none) ⟨10, 1, 100, 0⟩
        witnessEventsPage) ∧
      checkpointChain (completeLogEventTask
        (loadIndexingFunctionTasks (buildIndexingFunctionState [] false none none)
          ⟨10, 1, 100, 0⟩ witnessEventsPage) ⟨5, 1, 50, 0⟩) ∧
      checkpointChain (clampStateToSafe ⟨3, 1, 20, 0⟩
        (buildIndexingFunctionState [] false none none)) := by
  have hload := indexingFunctionState_checkpoint_chain.2.1
    (buildIndexingFunctionState [] false none none) ⟨10, 1, 100, 0⟩ witnessEventsPage
    (by decide)
    (by
      refine ⟨?_, ?_, ?_⟩
      · intro e he
        simp only [witnessEventsPage, List.mem_singleton] at he
        subst he
        exact ⟨by decide, by decide⟩
      · simp only [witnessEventsPage]
        exact List.pairwise_singleton _ _
      · intro h
        simp [witnessEventsPage] at h)
    (by decide)
  refine ⟨indexingFunctionState_checkpoint_chain.1 [] false none none, hload, ?_, ?_⟩
  · exact indexingFunctionState_checkpoint_chain.2.2.1 _ _ hload (by decide) (by decide)
  · exact indexingFunctionState_checkpoint_chain.2.2.2 ⟨3, 1, 20, 0⟩ _ (by decide)

/-- Variadic `checkpointMin(a, ...rest)` of the checkpoint utility. -/
def checkpointMinList (c : Cp) (cs : List Cp) : Cp := cs.foldl checkpointMin c

/-- Translated from the per-key body of `enqueueLogEventTasks`: given the
`tasksLoadedFromCheckpoint` of each parent key, classify the state into the
four dispatch cases and return the dispatched tasks together with the
updated state.  The loop of `enqueueLogEventTasks` applies this body to
every key; no branch writes any `tasksLoadedFromCheckpoint`, so the bodies
are independent. -/
def enqueueLogEventTasksForKey (parentLoadedFrom : Nat → Cp) (s : FnState) :
    List Cp × FnState :=
  match s.loadedTasks with
  | [] => ([], s)
  | t0 :: rest =>
    if s.parents = [] ∧ s.isSelfDependent = true ∧
        isCheckpointGreaterThanOrEqualTo s.tasksLoadedFromCheckpoint t0 then
      ([t0], { s with loadedTasks := rest })
    else if s.parents = [] ∧ s.isSelfDependent = false then
      (t0 :: rest, { s with loadedTasks := [] })
    else if s.parents ≠ [] then
      let parentFroms := s.parents.map parentLoadedFrom
      if s.isSelfDependent = true ∧
          isCheckpointGreaterThanOrEqualTo
            (checkpointMinList s.tasksLoadedFromCheckpoint parentFroms) t0 then
        ([t0], { s with loadedTasks := rest })
      else if s.isSelfDependent = false then
        let minParentCheckpoint := checkpointMinOver parentFroms
        match (t0 :: rest).findIdx?
            (fun t => decide (isCheckpointGreaterThan t minParentCheckpoint)) with
        | none => (t0 :: rest, { s with loadedTasks := [] })
        | some i => ((t0 :: rest).take i, { s with loadedTasks := (t0 :: rest).drop i })
      else ([], s)
    else ([], s)

theorem findIdx?_none_takeWhile {α : Type} {p : α → Bool} :
    ∀ {l : List α}, l.findIdx? p = none →
      l.takeWhile (fun a => ! p a) = l ∧ l.dropWhile (fun a => ! p a) = [] := by
  intro l
  induction l with
  | nil => intro _; exact ⟨rfl, rfl⟩
  | cons a t ih =>
    intro h
    rw [List.findIdx?_cons, List.findIdx?_succ] at h
    by_cases hp : p a
    · simp [hp] at h
    · simp only [hp, if_false, Bool.false_eq_true, Option.map_eq_none'] at h
      rcases ih h with ⟨h1, h2⟩
      constructor
      · simp [List.takeWhile_cons, hp, h1]
      · simp [List.dropWhile_cons, hp, h2]

theorem findIdx?_some_takeWhile {α : Type} {p : α → Bool} :
    ∀ {l : List α} {i : Nat}, l.findIdx? p = some i →
      l.takeWhile (fun a => ! p a) = l.take i ∧ l.dropWhile (fun a => ! p a) = l.drop i := by
  intro l
  induction l with
  | nil => intro i h; simp [List.findIdx?] at h
  | cons a t ih =>
    intro i h
    rw [List.findIdx?_cons, List.findIdx?_succ] at h
    by_cases hp : p a
    · simp only [hp, if_true, Option.some.injEq] at h
      subst h
      constructor
      · simp [List.takeWhile_cons, hp]
      · simp [List.dropWhile_cons, hp]
    · simp only [hp, if_false, Bool.false_eq_true, Option.map_eq_some'] at h
      rcases h with ⟨j, hj, hij⟩
      subst hij
      rcases ih hj with ⟨h1, h2⟩
      constructor
      · simp [List.takeWhile_cons, hp, h1]
      · simp [List.dropWhile_cons, hp, h2]

theorem decide_cpLe_eq_not_gt (m t : Cp) :
    decide (cpLe t m) = ! decide (isCheckpointGreaterThan t m) := by
  by_cases h : cpLt m t
  · rw [decide_eq_true (show isCheckpointGreaterThan t m from h)]
    simp only [Bool.not_true]
    apply decide_eq_false
    intro hle
    exact (cpLt_iff m t).mp h |>.2 hle
  · rw [decide_eq_false (show ¬ isCheckpointGreaterThan t m from h)]
    simp only [Bool.not_false]
    exact decide_eq_true (not_cpLt.mp h)

/-- C4: for every state that has parents and is not self-dependent, the
dispatch body enqueues exactly the contiguous leading run of `loadedTasks`
whose checkpoints are at most the minimum of the parents'
`tasksLoadedFromCheckpoint`, and keeps the rest buffered. -/
theorem enqueueLogEventTasks_dependent_dispatch
    (parentLoadedFrom : Nat → Cp) (s : FnState)
    (hp : s.parents ≠ []) (hsd : s.isSelfDependent = false) :
    enqueueLogEventTasksForKey parentLoadedFrom s =
      (s.loadedTasks.takeWhile (fun t => decide (cpLe t
          (checkpointMinOver (s.parents.map parentLoadedFrom)))),
        { s with loadedTasks := s.loadedTasks.dropWhile (fun t => decide (cpLe t
          (checkpointMinOver (s.parents.map parentLoadedFrom)))) }) := by
  have hfun : (fun t => decide (cpLe t (checkpointMinOver (s.parents.map parentLoadedFrom)))) =
      (fun t => ! decide (isCheckpointGreaterThan t
        (checkpointMinOver (s.parents.map parentLoadedFrom)))) := by
    funext t
    exact decide_cpLe_eq_not_gt _ t
  rw [hfun]
  unfold enqueueLogEventTasksForKey
  cases htasks : s.loadedTasks with
  | nil =>
    simp only [List.takeWhile_nil, List.dropWhile_nil]
    rcases s with ⟨par, sd, a, b, c, tasks, d, e⟩
    simp only at htasks
    subst htasks
    rfl
  | cons t0 rest =>
    dsimp only
    rw [if_neg (by simp [hp]), if_neg (by simp [hp, hsd]), if_pos hp]
    rw [if_neg (by simp [hsd]), if_pos hsd]
    cases hfi : (t0 :: rest).findIdx?
        (fun t => decide (isCheckpointGreaterThan t
          (checkpointMinOver (s.parents.map parentLoadedFrom)))) with
    | none =>
      obtain ⟨h1, h2⟩ := findIdx?_none_takeWhile hfi
      dsimp only
      rw [h1, h2]
    | some i =>
      obtain ⟨h1, h2⟩ := findIdx?_some_takeWhile hfi
      dsimp only
      rw [h1, h2]

/-- The dependency-dispatch example of the spec: function B has one parent A
with `tasksLoadedFromCheckpoint = (50, …)` and buffered checkpoints
`(30, …), (45, …), (60, …)`. -/
def dispatchExampleState : FnState :=
  { parents := [0]
    isSelfDependent := false
    tasksProcessedToCheckpoint := zeroCheckpoint
    tasksLoadedFromCheckpoint := zeroCheckpoint
    tasksLoadedToCheckpoint := ⟨70, 1, 700, 0⟩
    loadedTasks := [⟨30, 1, 300, 0⟩, ⟨45, 1, 450, 0⟩, ⟨60, 1, 600, 0⟩]
    firstEventCheckpoint := none
    lastEventCheckpoint := none }

/-- The parent lookup of the dispatch example: A is loaded from `(50, …)`. -/
def dispatchExampleParentLoadedFrom : Nat → Cp := fun _ => ⟨50, 1, 500, 0⟩

/-- Witness for C4: on the spec's example the dispatch theorem yields exactly
`(30, …)` and `(45, …)` dispatched with `(60, …)` held back. -/
theorem enqueueLogEventTasks_dependent_dispatch_witness :
    enqueueLogEventTasksForKey dispatchExampleParentLoadedFrom dispatchExampleState =
      ([⟨30, 1, 300, 0⟩, ⟨45, 1, 450, 0⟩],
        { dispatchExampleState with loadedTasks := [⟨60, 1, 600, 0⟩] }) := by
  rw [enqueueLogEventTasks_dependent_dispatch dispatchExampleParentLoadedFrom
    dispatchExampleState (by decide) (by decide)]
  decide

/-- The scheduler-level state `handleReorg` operates on: the per-key function
states and the trace of `indexingStore.revert` calls. -/
structure IndexingSystem where
  states : List (Nat × FnState)
  reverts : List Cp
  deriving DecidableEq, Repr

/-- Translated from `IndexingService.handleReorg`: when some function state
has `tasksProcessedToCheckpoint > safeCheckpoint`, call the entity store's
revert once and clamp every state's three checkpoints down to
`safeCheckpoint`; otherwise do nothing. -/
def handleReorg (sys : IndexingSystem) (safeCheckpoint : Cp) : IndexingSystem :=
  if sys.states.any
      (fun p => decide (isCheckpointGreaterThan p.2.tasksProcessedToCheckpoint
        safeCheckpoint)) then
    { states := sys.states.map (fun p => (p.1, clampStateToSafe safeCheckpoint p.2))
      reverts := sys.reverts ++ [safeCheckpoint] }
  else sys

/-- C5: `handleReorg(safe)` is a no-op when no state has
`tasksProcessedToCheckpoint > safe`; otherwise it appends exactly one revert
at `safe` and clamps every state's three checkpoints down to `safe`, leaving
any checkpoint already at or below `safe` unchanged. -/
theorem handleReorg_spec (sys : IndexingSystem) (safeCheckpoint : Cp) :
    ((∀ p ∈ sys.states, cpLe p.2.tasksProcessedToCheckpoint safeCheckpoint) →
        handleReorg sys safeCheckpoint = sys) ∧
      ((∃ p ∈ sys.states, cpLt safeCheckpoint p.2.tasksProcessedToCheckpoint) →
        (handleReorg sys safeCheckpoint).reverts = sys.reverts ++ [safeCheckpoint] ∧
          (handleReorg sys safeCheckpoint).states =
            sys.states.map (fun p => (p.1, clampStateToSafe safeCheckpoint p.2))) ∧
      (∀ s : FnState,
        (cpLt safeCheckpoint s.tasksProcessedToCheckpoint →
          (clampStateToSafe safeCheckpoint s).tasksProcessedToCheckpoint =
            safeCheckpoint) ∧
        (cpLe s.tasksProcessedToCheckpoint safeCheckpoint →
          (clampStateToSafe safeCheckpoint s).tasksProcessedToCheckpoint =
            s.tasksProcessedToCheckpoint) ∧
        (cpLt safeCheckpoint s.tasksLoadedFromCheckpoint →
          (clampStateToSafe safeCheckpoint s).tasksLoadedFromCheckpoint =
            safeCheckpoint) ∧
        (cpLe s.tasksLoadedFromCheckpoint safeCheckpoint →
          (clampStateToSafe safeCheckpoint s).tasksLoadedFromCheckpoint =
            s.tasksLoadedFromCheckpoint) ∧
        (cpLt safeCheckpoint s.tasksLoadedToCheckpoint →
          (clampStateToSafe safeCheckpoint s).tasksLoadedToCheckpoint =
            safeCheckpoint) ∧
        (cpLe s.tasksLoadedToCheckpoint safeCheckpoint →
          (clampStateToSafe safeCheckpoint s).tasksLoadedToCheckpoint =
            s.tasksLoadedToCheckpoint)) := by
  refine ⟨?_, ?_, ?_⟩
  · intro hall
    unfold handleReorg
    rw [if_neg]
    intro hany
    rw [List.any_eq_true] at hany
    rcases hany with ⟨p, hp, hgt⟩
    rw [decide_eq_true_eq] at hgt
    exact (cpLt_iff _ _).mp hgt |>.2 (hall p hp)
  · intro hex
    unfold handleReorg
    rw [if_pos]
    · exact ⟨rfl, rfl⟩
    · rw [List.any_eq_true]
      rcases hex with ⟨p, hp, hgt⟩
      exact ⟨p, hp, decide_eq_true hgt⟩
  · intro s
    unfold clampStateToSafe isCheckpointGreaterThan
    refine ⟨?_, ?_, ?_, ?_, ?_, ?_⟩
    · intro h
      simp only [if_pos h]
    · intro h
      simp only [if_neg (not_cpLt.mpr h)]
    · intro h
      simp only [if_pos h]
    · intro h
      simp only [if_neg (not_cpLt.mpr h)]
    · intro h
      simp only [if_pos h]
    · intro h
      simp only [if_neg (not_cpLt.mpr h)]

/-- A function state processed to checkpoint `(100, 1, 1000, 5)`, as in the
reorg scenario of the spec. -/
def reorgExampleState : FnState :=
  { parents := []
    isSelfDependent := false
    tasksProcessedToCheckpoint := ⟨100, 1, 1000, 5⟩
    tasksLoadedFromCheckpoint := ⟨100, 1, 1000, 5⟩
    tasksLoadedToCheckpoint := ⟨100, 1, 1000, 5⟩
    loadedTasks := []
    firstEventCheckpoint := none
    lastEventCheckpoint := none }

/-- Two functions processed to `(100, 1, 1000, 5)` and no reverts yet. -/
def reorgExampleSystem : IndexingSystem :=
  ⟨[(0, reorgExampleState), (1, reorgExampleState)], []⟩

/-- Witness for C5: the reorg scenario of the spec; the revert is called
exactly once at `(90, 1, 900, 0)` and both states are clamped. -/
theorem handleReorg_spec_witness :
    (handleReorg reorgExampleSystem ⟨90, 1, 900, 0⟩).reverts = [⟨90, 1, 900, 0⟩] ∧
      (handleReorg reorgExampleSystem ⟨90, 1, 900, 0⟩).states =
        reorgExampleSystem.states.map
          (fun p => (p.1, clampStateToSafe ⟨90, 1, 900, 0⟩ p.2)) := by
  have h := (handleReorg_spec reorgExampleSystem ⟨90, 1, 900, 0⟩).2.1 (by decide)
  refine ⟨?_, h.2⟩
  rw [h.1]
  rfl

/-- Outcome of one attempt of the user indexing function. -/
inductive AttemptOutcome where
  | success
  | retryableError
  | nonRetryableError
  deriving DecidableEq, Repr

/-- Trace of one `executeLogEventTask` run: how many attempts were made,
the entity-store reverts performed between attempts, the terminal-branch
effects, and whether the task eventually succeeded. -/
structure ExecTrace where
  attempts : Nat
  reverts : List Cp
  paused : Bool
  queueCleared : Bool
  hasErrorMetricSet : Bool
  errorEmitted : Bool
  succeeded : Bool
  deriving DecidableEq, Repr

/-- Translated from the retry loop of `executeLogEventTask`
(`for (let i = 0; i < 4; i++)`): on success break; on a failure, a
`NonRetryableError` forces `i = 3`; when `i = 3` the terminal branch pauses,
clears the queue, sets `ponder_indexing_has_error` and emits `error`;
otherwise the indexing store is reverted to the task's checkpoint and the
attempt is retried.  `fuel` is `4 - i`. -/
def execAttempts (outcome : Nat → AttemptOutcome) (taskCheckpoint : Cp) :
    Nat → Nat → ExecTrace
  | 0, _ => ⟨0, [], false, false, false, false, false⟩
  | fuel + 1, i =>
    match outcome i with
    | .success => ⟨1, [], false, false, false, false, true⟩
    | .nonRetryableError => ⟨1, [], true, true, true, true, false⟩
    | .retryableError =>
      if i = 3 then ⟨1, [], true, true, true, true, false⟩
      else
        let rest := execAttempts outcome taskCheckpoint fuel (i + 1)
        ⟨rest.attempts + 1, taskCheckpoint :: rest.reverts, rest.paused,
          rest.queueCleared, rest.hasErrorMetricSet, rest.errorEmitted, rest.succeeded⟩

/-- Translated from `executeLogEventTask`: run the retry loop from attempt 0
with four attempts available. -/
def executeLogEventTask (outcome : Nat → AttemptOutcome) (taskCheckpoint : Cp) :
    ExecTrace :=
  execAttempts outcome taskCheckpoint 4 0

/-- C6: the executor makes at most 4 attempts; exactly one revert at the
task's checkpoint precedes every retry (so the reverts are
`attempts - 1` copies of the task checkpoint); every non-final attempt
failed with a retryable error, so a non-retryable error is never followed by
another attempt; the terminal effects (pause, queue clear,
`ponder_indexing_has_error`, `error` event) are all set together, exactly
when the last attempt was a non-retryable error or the 4th attempt failed;
and the run succeeds exactly when its last attempt succeeded. -/
theorem executeLogEventTask_retry_policy (outcome : Nat → AttemptOutcome)
    (taskCheckpoint : Cp) :
    (executeLogEventTask outcome taskCheckpoint).attempts ≤ 4 ∧
      1 ≤ (executeLogEventTask outcome taskCheckpoint).attempts ∧
      (executeLogEventTask outcome taskCheckpoint).reverts =
        List.replicate ((executeLogEventTask outcome taskCheckpoint).attempts - 1)
          taskCheckpoint ∧
      (∀ i, i + 1 < (executeLogEventTask outcome taskCheckpoint).attempts →
        outcome i = .retryableError) ∧
      (executeLogEventTask outcome taskCheckpoint).paused =
        (executeLogEventTask outcome taskCheckpoint).queueCleared ∧
      (executeLogEventTask outcome taskCheckpoint).paused =
        (executeLogEventTask outcome taskCheckpoint).hasErrorMetricSet ∧
      (executeLogEventTask outcome taskCheckpoint).paused =
        (executeLogEventTask outcome taskCheckpoint).errorEmitted ∧
      ((executeLogEventTask outcome taskCheckpoint).paused = true ↔
        (outcome ((executeLogEventTask outcome taskCheckpoint).attempts - 1) =
            .nonRetryableError ∨
          ((executeLogEventTask outcome taskCheckpoint).attempts = 4 ∧
            outcome 3 = .retryableError))) ∧
      ((executeLogEventTask outcome taskCheckpoint).succeeded = true ↔
        outcome ((executeLogEventTask outcome taskCheckpoint).attempts - 1) =
          .success) := by
  have h0 := rfl (a := outcome 0)
  rcases ho0 : outcome 0 with _ | _ | _ <;>
    rcases ho1 : outcome 1 with _ | _ | _ <;>
    rcases ho2 : outcome 2 with _ | _ | _ <;>
    rcases ho3 : outcome 3 with _ | _ | _ <;>
    simp only [executeLogEventTask, execAttempts, ho0, ho1, ho2, ho3] <;>
    norm_num <;>
    first
      | rfl
      | decide
      | (intro i hi
         interval_cases i <;> assumption)
      | (refine ⟨?_, ?_⟩
         · intro i hi
           interval_cases i <;> assumption
         · simp [ho0, ho1, ho2, ho3])
      | (simp_all
         done)
      | (simp_all <;>
          (intro i hi
           rcases i with _ | _ | _ | n <;>
             first
               | assumption
               | (exfalso; omega)))
      | ((refine ⟨?_, ?_⟩ <;> simp_all) <;>
          (intro i hi
           rcases i with _ | _ | _ | n <;>
             first
               | assumption
               | (exfalso; omega)))

/-- An outcome schedule that fails twice retryably and then succeeds. -/
def witnessOutcome : Nat → AttemptOutcome :=
  fun i => if i < 2 then .retryableError else .success

/-- Witness for C6: the retry-policy theorem applied at a concrete outcome
schedule and task checkpoint. -/
theorem executeLogEventTask_retry_policy_witness :
    (executeLogEventTask witnessOutcome ⟨7, 1, 70, 0⟩).attempts ≤ 4 ∧
      1 ≤ (executeLogEventTask witnessOutcome ⟨7, 1, 70, 0⟩).attempts ∧
      (executeLogEventTask witnessOutcome ⟨7, 1, 70, 0⟩).reverts =
        List.replicate ((executeLogEventTask witnessOutcome ⟨7, 1, 70, 0⟩).attempts - 1)
          ⟨7, 1, 70, 0⟩ ∧
      (∀ i, i + 1 < (executeLogEventTask witnessOutcome ⟨7, 1, 70, 0⟩).attempts →
        witnessOutcome i = .retryableError) ∧
      (executeLogEventTask witnessOutcome ⟨7, 1, 70, 0⟩).paused =
        (executeLogEventTask witnessOutcome ⟨7, 1, 70, 0⟩).queueCleared ∧
      (executeLogEventTask witnessOutcome ⟨7, 1, 70, 0⟩).paused =
        (executeLogEventTask witnessOutcome ⟨7, 1, 70, 0⟩).hasErrorMetricSet ∧
      (executeLogEventTask witnessOutcome ⟨7, 1, 70, 0⟩).paused =
        (executeLogEventTask witnessOutcome ⟨7, 1, 70, 0⟩).errorEmitted ∧
      ((executeLogEventTask witnessOutcome ⟨7, 1, 70, 0⟩).paused = true ↔
        (witnessOutcome ((executeLogEventTask witnessOutcome ⟨7, 1, 70, 0⟩).attempts - 1) =
            .nonRetryableError ∨
          ((executeLogEventTask witnessOutcome ⟨7, 1, 70, 0⟩).attempts = 4 ∧
            witnessOutcome 3 = .retryableError))) ∧
      ((executeLogEventTask witnessOutcome ⟨7, 1, 70, 0⟩).succeeded = true ↔
        witnessOutcome ((executeLogEventTask witnessOutcome ⟨7, 1, 70, 0⟩).attempts - 1) =
          .success) :=
  executeLogEventTask_retry_policy witnessOutcome ⟨7, 1, 70, 0⟩

/-- Concrete check of the executor model: two retryable failures then
success gives three attempts and two reverts at the task checkpoint. -/
theorem executeLogEventTask_example :
    executeLogEventTask witnessOutcome ⟨7, 1, 70, 0⟩ =
      ⟨3, [⟨7, 1, 70, 0⟩, ⟨7, 1, 70, 0⟩], false, false, false, false, true⟩ := by
  decide

/-- Concrete check of the executor model: a non-retryable failure on the
second attempt stops immediately with the terminal effects and only the
first retry's revert. -/
theorem executeLogEventTask_nonretryable_example :
    executeLogEventTask
        (fun i => if i = 0 then .retryableError else .nonRetryableError)
        ⟨7, 1, 70, 0⟩ =
      ⟨2, [⟨7, 1, 70, 0⟩], true, true, true, true, false⟩ := by
  decide

/-! ### Sync store: getLogFilterIntervals (C7)

Embedding of `PostgresSyncStore.getLogFilterIntervals`: per-fragment
compaction (delete the fragment's interval rows, union them, re-insert the
merged rows, upserting the fragment's filter row), then the SELECT that
joins every stored interval row whose owning filter row matches a fragment
under the null-or-equal join condition, grouped per fragment, unioned and
intersected. -/

/-- A row of the `logFilters` table (also the shape of a filter fragment):
the id is the fragment fingerprint, slots are nullable. -/
structure LogFilterRow where
  id : Nat
  chainId : Nat
  address : Option Nat
  topic0 : Option Nat
  topic1 : Option Nat
  topic2 : Option Nat
  topic3 : Option Nat
  deriving DecidableEq, Repr

/-- A row of the `logFilterIntervals` table. -/
structure FilterIntervalRow where
  logFilterId : Nat
  startBlock : Nat
  endBlock : Nat
  deriving DecidableEq, Repr

/-- The sync store state that `getLogFilterIntervals` touches. -/
structure FilterDb where
  logFilters : List LogFilterRow
  logFilterIntervals : List FilterIntervalRow
  deriving DecidableEq, Repr

/-- One slot of the SELECT's join condition:
`column IS NULL OR fragmentValue = column` under SQL null semantics. -/
def optionSlotMatches (fragVal rowVal : Option Nat) : Bool :=
  match rowVal with
  | none => true
  | some v => decide (fragVal = some v)

/-- The join condition of the SELECT: every slot of the stored filter row is
NULL or equal to the fragment's value. -/
def fragmentMatchesRow (frag row : LogFilterRow) : Bool :=
  optionSlotMatches frag.address row.address &&
    optionSlotMatches frag.topic0 row.topic0 &&
    optionSlotMatches frag.topic1 row.topic1 &&
    optionSlotMatches frag.topic2 row.topic2 &&
    optionSlotMatches frag.topic3 row.topic3

/-- The `insertInto("logFilters").onConflict(doUpdateSet)` upsert. -/
def upsertLogFilter (filters : List LogFilterRow) (frag : LogFilterRow) :
    List LogFilterRow :=
  if filters.any (fun r => decide (r.id = frag.id)) then
    filters.map (fun r => if r.id = frag.id then frag else r)
  else filters ++ [frag]

/-- The `[startBlock, endBlock]` value of an interval row. -/
def rowPair (r : FilterIntervalRow) : Iv := (r.startBlock, r.endBlock)

/-- One compaction transaction of `getLogFilterIntervals`: upsert the
fragment's filter row, delete the fragment's interval rows, union them, and
re-insert the merged rows. -/
def compactFragment (db : FilterDb) (frag : LogFilterRow) : FilterDb :=
  let filters := upsertLogFilter db.logFilters frag
  let own := db.logFilterIntervals.filter (fun r => decide (r.logFilterId = frag.id))
  let others := db.logFilterIntervals.filter (fun r => ! decide (r.logFilterId = frag.id))
  let merged := (intervalUnion (own.map rowPair)).map
    (fun p => ⟨frag.id, p.1, p.2⟩ : Iv → FilterIntervalRow)
  ⟨filters, others ++ merged⟩

/-- The interval rows the SELECT attributes to a fragment: every stored
interval row whose owning filter row (found by id, `LIMIT 1`) has the query
chain id and matches the fragment under the null-or-equal join. -/
def matchingRows (db : FilterDb) (chainId : Nat) (frag : LogFilterRow) : List Iv :=
  db.logFilterIntervals.filterMap (fun r =>
    match db.logFilters.find? (fun ℓ => decide (ℓ.id = r.logFilterId)) with
    | some owner =>
      if owner.chainId = chainId ∧ fragmentMatchesRow frag owner = true then
        some (rowPair r)
      else none
    | none => none)

/-- Translated from `PostgresSyncStore.getLogFilterIntervals`: compact every
fragment, then intersect the per-fragment unions of the matching interval
rows.  Returns the result and the updated store. -/
def getLogFilterIntervals (db : FilterDb) (chainId : Nat)
    (fragments : List LogFilterRow) : List Iv × FilterDb :=
  let db2 := fragments.foldl compactFragment db
  (intervalIntersectionMany
      (fragments.map (fun f => intervalUnion (matchingRows db2 chainId f))),
    db2)

/-- The interval rows stored under the fragment's own id. -/
def ownRowsIntervals (db : FilterDb) (frag : LogFilterRow) : List Iv :=
  (db.logFilterIntervals.filter (fun r => decide (r.logFilterId = frag.id))).map rowPair

/-- The claim's reading of the result: the intersection of the per-fragment
unions of each fragment's own stored interval rows. -/
def specLogFilterIntervals (db : FilterDb) (fragments : List LogFilterRow) : List Iv :=
  intervalIntersectionMany (fragments.map (fun f => intervalUnion (ownRowsIntervals db f)))

/-- A stored wildcard filter row (all slots NULL) on chain 1 with one synced
interval, and a single-address fragment with no rows of its own. -/
def broaderFilterDb : FilterDb :=
  ⟨[⟨99, 1, none, none, none, none, none⟩], [⟨99, 0, 100⟩]⟩

/-- The address-specialized fragment of the query. -/
def narrowFragment : LogFilterRow := ⟨1, 1, some 10, none, none, none, none⟩

/-- C7 as stated is false: the fragment owns no interval rows, so the claim
predicts an empty result, but the SELECT also joins the stored wildcard
filter's rows to the fragment and the code returns its interval. -/
theorem getLogFilterIntervals_counterexample :
    (getLogFilterIntervals broaderFilterDb 1 [narrowFragment]).1 = [(0, 100)] ∧
      specLogFilterIntervals broaderFilterDb [narrowFragment] = [] := by
  decide

/-! Helper lemmas for the amended C7 theorem: the compaction pass rewrites the
fragment's own rows to the canonical merged form and leaves the SELECT's
result unchanged. -/

theorem filter_filter_imp {α : Type} (p q : α → Bool) (l : List α)
    (h : ∀ a, p a = true → q a = true) : (l.filter q).filter p = l.filter p := by
  induction l with
  | nil => rfl
  | cons a t ih =>
    rcases hp : p a with _ | _
    · rcases hq : q a with _ | _
      · simp only [List.filter_cons, hp, hq, Bool.false_eq_true, if_false, ih]
      · simp only [List.filter_cons, hp, hq, Bool.false_eq_true, if_false, if_true, ih]
    · have hq := h a hp
      simp only [List.filter_cons, hp, hq, if_true, ih]

theorem filterMap_congr_some {α β : Type} (fn : α → Option β) (f : α → β) (l : List α)
    (h : ∀ a ∈ l, fn a = some (f a)) : l.filterMap fn = l.map f := by
  induction l with
  | nil => rfl
  | cons a t ih =>
    rw [List.filterMap_cons, h a (by simp), List.map_cons,
      ih (fun b hb => h b (by simp [hb]))]

theorem filterMap_congr_none {α β : Type} (fn : α → Option β) (l : List α)
    (h : ∀ a ∈ l, fn a = none) : l.filterMap fn = [] := by
  induction l with
  | nil => rfl
  | cons a t ih =>
    rw [List.filterMap_cons, h a (by simp)]
    exact ih (fun b hb => h b (by simp [hb]))

/-- Under fragment-id determinism the upsert either rewrites the table in
place (some row already carries the id, and it equals the fragment) or
appends the fragment to a table free of its id. -/
theorem upsertLogFilter_cases (filters : List LogFilterRow) (f : LogFilterRow)
    (hdet : ∀ ℓ ∈ filters, ℓ.id = f.id → ℓ = f) :
    (upsertLogFilter filters f = filters ∧ ∃ ℓ ∈ filters, ℓ.id = f.id) ∨
      (upsertLogFilter filters f = filters ++ [f] ∧ ∀ ℓ ∈ filters, ℓ.id ≠ f.id) := by
  unfold upsertLogFilter
  by_cases hany : filters.any (fun r => decide (r.id = f.id)) = true
  · left
    rw [if_pos hany]
    rcases List.any_eq_true.mp hany with ⟨x, hx, hpx⟩
    refine ⟨?_, x, hx, by simpa using hpx⟩
    have hid : ∀ r ∈ filters, (if r.id = f.id then f else r) = r := by
      intro r hr
      by_cases hrid : r.id = f.id
      · rw [if_pos hrid, hdet r hr hrid]
      · rw [if_neg hrid]
    rw [List.map_congr_left hid]
    exact List.map_id' filters
  · right
    rw [if_neg hany]
    refine ⟨rfl, ?_⟩
    intro ℓ hℓ he
    exact hany (List.any_eq_true.mpr ⟨ℓ, hℓ, by simpa using he⟩)

theorem mem_upsert_self (filters : List LogFilterRow) (f : LogFilterRow)
    (hdet : ∀ ℓ ∈ filters, ℓ.id = f.id → ℓ = f) : f ∈ upsertLogFilter filters f := by
  rcases upsertLogFilter_cases filters f hdet with ⟨h, ℓ, hℓ, he⟩ | ⟨h, _⟩
  · rw [h, ← hdet ℓ hℓ he]
    exact hℓ
  · rw [h]
    exact List.mem_append_right _ (by simp)

theorem mem_upsert_of_mem (filters : List LogFilterRow) (f : LogFilterRow)
    (hdet : ∀ ℓ ∈ filters, ℓ.id = f.id → ℓ = f) :
    ∀ ℓ ∈ filters, ℓ ∈ upsertLogFilter filters f := by
  intro ℓ hℓ
  rcases upsertLogFilter_cases filters f hdet with ⟨h, _⟩ | ⟨h, _⟩
  · rw [h]; exact hℓ
  · rw [h]; exact List.mem_append_left _ hℓ

theorem mem_upsert_cases (filters : List LogFilterRow) (f : LogFilterRow)
    (hdet : ∀ ℓ ∈ filters, ℓ.id = f.id → ℓ = f) :
    ∀ ℓ ∈ upsertLogFilter filters f, ℓ ∈ filters ∨ ℓ = f := by
  intro ℓ hℓ
  rcases upsertLogFilter_cases filters f hdet with ⟨h, _⟩ | ⟨h, _⟩
  · rw [h] at hℓ; exact Or.inl hℓ
  · rw [h] at hℓ
    rcases List.mem_append.mp hℓ with h2 | h2
    · exact Or.inl h2
    · exact Or.inr (by simpa using h2)

/-- The owner lookup for an id other than the upserted fragment's is
unchanged by the upsert. -/
theorem find?_upsert_ne (filters : List LogFilterRow) (f : LogFilterRow) (fid : Nat)
    (hdet : ∀ ℓ ∈ filters, ℓ.id = f.id → ℓ = f) (hne : fid ≠ f.id) :
    (upsertLogFilter filters f).find? (fun ℓ => decide (ℓ.id = fid)) =
      filters.find? (fun ℓ => decide (ℓ.id = fid)) := by
  rcases upsertLogFilter_cases filters f hdet with ⟨h, _⟩ | ⟨h, _⟩
  · rw [h]
  · rw [h, List.find?_append]
    have hsingle : (([f] : List LogFilterRow).find? (fun ℓ => decide (ℓ.id = fid))) = none := by
      rw [List.find?_eq_none]
      intro x hx
      simp only [List.mem_singleton] at hx
      subst hx
      simp only [decide_eq_true_eq]
      exact fun hcon => hne hcon.symm
    rw [hsingle, Option.or_none]

/-- The owner lookup for the upserted fragment's own id finds the fragment. -/
theorem find?_upsert_self (filters : List LogFilterRow) (f : LogFilterRow)
    (hdet : ∀ ℓ ∈ filters, ℓ.id = f.id → ℓ = f) :
    (upsertLogFilter filters f).find? (fun ℓ => decide (ℓ.id = f.id)) = some f := by
  rcases hfind : (upsertLogFilter filters f).find? (fun ℓ => decide (ℓ.id = f.id)) with _ | y
  · exfalso
    have hmem := mem_upsert_self filters f hdet
    have := List.find?_eq_none.mp hfind f hmem
    simp at this
  · have hy1 := List.mem_of_find?_eq_some hfind
    have hy2 := List.find?_some hfind
    simp only [decide_eq_true_eq] at hy2
    rcases mem_upsert_cases filters f hdet y hy1 with h | h
    · rw [hfind, hdet y h hy2]
    · rw [hfind, h]

/-- If some stored filter row carries an id and every row with the
fragment's id equals the fragment, the lookup at that id finds the
fragment. -/
theorem find?_det_eq (filters : List LogFilterRow) (f : LogFilterRow) (fid : Nat)
    (hex : ∃ ℓ ∈ filters, ℓ.id = fid) (hfid : fid = f.id)
    (hdet : ∀ ℓ ∈ filters, ℓ.id = f.id → ℓ = f) :
    filters.find? (fun ℓ => decide (ℓ.id = fid)) = some f := by
  rcases hex with ⟨ℓ, hℓ, he⟩
  have hsome : (filters.find? (fun ℓ => decide (ℓ.id = fid))).isSome :=
    List.find?_isSome.mpr ⟨ℓ, hℓ, by simpa using he⟩
  rcases Option.isSome_iff_exists.mp hsome with ⟨y, hy⟩
  have hy1 := List.mem_of_find?_eq_some hy
  have hy2 := List.find?_some hy
  simp only [decide_eq_true_eq] at hy2
  rw [hy, hdet y hy1 (by rw [hy2, hfid])]

theorem compactFragment_rows (db : FilterDb) (f : LogFilterRow) :
    (compactFragment db f).logFilterIntervals =
      db.logFilterIntervals.filter (fun r => ! decide (r.logFilterId = f.id)) ++
        (intervalUnion ((db.logFilterIntervals.filter
            (fun r => decide (r.logFilterId = f.id))).map rowPair)).map
          (fun p => (⟨f.id, p.1, p.2⟩ : FilterIntervalRow)) := rfl

theorem compactFragment_filters (db : FilterDb) (f : LogFilterRow) :
    (compactFragment db f).logFilters = upsertLogFilter db.logFilters f := rfl

theorem compactFragment_wf (db : FilterDb) (f : LogFilterRow)
    (hwf : ∀ r ∈ db.logFilterIntervals, r.startBlock ≤ r.endBlock) :
    ∀ r ∈ (compactFragment db f).logFilterIntervals, r.startBlock ≤ r.endBlock := by
  rw [compactFragment_rows]
  intro r hr
  rcases List.mem_append.mp hr with h | h
  · exact hwf r (List.mem_of_mem_filter h)
  · rcases List.mem_map.mp h with ⟨p, hp, rfl⟩
    have hwm : ivWf ((db.logFilterIntervals.filter
        (fun r => decide (r.logFilterId = f.id))).map rowPair) := by
      intro q hq
      rcases List.mem_map.mp hq with ⟨s, hs, rfl⟩
      simpa [rowPair] using hwf s (List.mem_of_mem_filter hs)
    exact intervalUnion_wf hwm p hp

theorem compactFragment_ref (db : FilterDb) (f : LogFilterRow)
    (href : ∀ r ∈ db.logFilterIntervals, ∃ ℓ ∈ db.logFilters, ℓ.id = r.logFilterId)
    (hdet : ∀ ℓ ∈ db.logFilters, ℓ.id = f.id → ℓ = f) :
    ∀ r ∈ (compactFragment db f).logFilterIntervals,
      ∃ ℓ ∈ (compactFragment db f).logFilters, ℓ.id = r.logFilterId := by
  rw [compactFragment_rows, compactFragment_filters]
  intro r hr
  rcases List.mem_append.mp hr with h | h
  · rcases href r (List.mem_of_mem_filter h) with ⟨ℓ, hℓ, he⟩
    exact ⟨ℓ, mem_upsert_of_mem db.logFilters f hdet ℓ hℓ, he⟩
  · rcases List.mem_map.mp h with ⟨p, _, rfl⟩
    exact ⟨f, mem_upsert_self db.logFilters f hdet, rfl⟩

theorem compactFragment_filter_ne (db : FilterDb) (f : LogFilterRow) (fid : Nat)
    (hne : fid ≠ f.id) :
    (compactFragment db f).logFilterIntervals.filter
        (fun r => decide (r.logFilterId = fid)) =
      db.logFilterIntervals.filter (fun r => decide (r.logFilterId = fid)) := by
  rw [compactFragment_rows, List.filter_append]
  have h1 : (db.logFilterIntervals.filter
      (fun r => ! decide (r.logFilterId = f.id))).filter
        (fun r => decide (r.logFilterId = fid)) =
      db.logFilterIntervals.filter (fun r => decide (r.logFilterId = fid)) := by
    apply filter_filter_imp
    intro r hr
    simp only [decide_eq_true_eq] at hr
    simp only [Bool.not_eq_true', decide_eq_false_iff_not]
    omega
  have h2 : ((intervalUnion ((db.logFilterIntervals.filter
      (fun r => decide (r.logFilterId = f.id))).map rowPair)).map
        (fun p => (⟨f.id, p.1, p.2⟩ : FilterIntervalRow))).filter
          (fun r => decide (r.logFilterId = fid)) = [] := by
    rw [List.filter_eq_nil_iff]
    intro r hr
    rcases List.mem_map.mp hr with ⟨p, _, rfl⟩
    simp only [decide_eq_true_eq]
    omega
  rw [h1, h2, List.append_nil]

theorem compactFragment_filter_self (db : FilterDb) (f : LogFilterRow) :
    (compactFragment db f).logFilterIntervals.filter
        (fun r => decide (r.logFilterId = f.id)) =
      (intervalUnion (ownRowsIntervals db f)).map
        (fun p => (⟨f.id, p.1, p.2⟩ : FilterIntervalRow)) := by
  rw [compactFragment_rows, List.filter_append]
  have h1 : (db.logFilterIntervals.filter
      (fun r => ! decide (r.logFilterId = f.id))).filter
        (fun r => decide (r.logFilterId = f.id)) = [] := by
    rw [List.filter_eq_nil_iff]
    intro r hr
    have := List.of_mem_filter hr
    simp only [Bool.not_eq_true', decide_eq_false_iff_not] at this
    simp [this]
  have h2 : ((intervalUnion ((db.logFilterIntervals.filter
      (fun r => decide (r.logFilterId = f.id))).map rowPair)).map
        (fun p => (⟨f.id, p.1, p.2⟩ : FilterIntervalRow))).filter
          (fun r => decide (r.logFilterId = f.id)) =
      (intervalUnion ((db.logFilterIntervals.filter
        (fun r => decide (r.logFilterId = f.id))).map rowPair)).map
          (fun p => (⟨f.id, p.1, p.2⟩ : FilterIntervalRow)) := by
    rw [List.filter_eq_self]
    intro r hr
    rcases List.mem_map.mp hr with ⟨p, _, rfl⟩
    simp
  rw [h1, h2, List.nil_append]
  rfl

theorem matchingRows_wf {db : FilterDb} {chainId : Nat} {g : LogFilterRow}
    (hwf : ∀ r ∈ db.logFilterIntervals, r.startBlock ≤ r.endBlock) :
    ivWf (matchingRows db chainId g) := by
  intro p hp
  unfold matchingRows at hp
  rcases List.mem_filterMap.mp hp with ⟨r, hr, he⟩
  rcases hfind : db.logFilters.find? (fun ℓ => decide (ℓ.id = r.logFilterId)) with _ | owner
  · rw [hfind] at he
    exact absurd he (by simp)
  · rw [hfind] at he
    dsimp only at he
    by_cases hc : owner.chainId = chainId ∧ fragmentMatchesRow g owner = true
    · rw [if_pos hc, Option.some_inj] at he
      subst he
      simpa [rowPair] using hwf r hr
    · rw [if_neg hc] at he
      exact absurd he (by simp)

/-- The SELECT's per-row keep function, named so the compaction proofs can
speak about it; `matchingRows` is definitionally `filterMap` of this. -/
def ownerKeep (filters : List LogFilterRow) (chainId : Nat) (g : LogFilterRow)
    (r : FilterIntervalRow) : Option Iv :=
  match filters.find? (fun ℓ => decide (ℓ.id = r.logFilterId)) with
  | some owner =>
    if owner.chainId = chainId ∧ fragmentMatchesRow g owner = true then some (rowPair r)
    else none
  | none => none

theorem matchingRows_eq_filterMap (db : FilterDb) (chainId : Nat) (g : LogFilterRow) :
    matchingRows db chainId g =
      db.logFilterIntervals.filterMap (ownerKeep db.logFilters chainId g) := rfl

theorem ownerKeep_eq_of_find? (filters : List LogFilterRow) (chainId : Nat)
    (g : LogFilterRow) (r : FilterIntervalRow) (owner : LogFilterRow)
    (h : filters.find? (fun ℓ => decide (ℓ.id = r.logFilterId)) = some owner) :
    ownerKeep filters chainId g r =
      if owner.chainId = chainId ∧ fragmentMatchesRow g owner = true then some (rowPair r)
      else none := by
  unfold ownerKeep
  rw [h]

theorem ownerKeep_congr (filters1 filters2 : List LogFilterRow) (chainId : Nat)
    (g : LogFilterRow) (r : FilterIntervalRow)
    (h : filters1.find? (fun ℓ => decide (ℓ.id = r.logFilterId)) =
      filters2.find? (fun ℓ => decide (ℓ.id = r.logFilterId))) :
    ownerKeep filters1 chainId g r = ownerKeep filters2 chainId g r := by
  unfold ownerKeep
  rw [h]

/-- The compaction transaction does not change which blocks the SELECT
covers, for any fragment, chain id and block. -/
theorem compactFragment_covers (db : FilterDb) (f : LogFilterRow)
    (href : ∀ r ∈ db.logFilterIntervals, ∃ ℓ ∈ db.logFilters, ℓ.id = r.logFilterId)
    (hdet : ∀ ℓ ∈ db.logFilters, ℓ.id = f.id → ℓ = f)
    (g : LogFilterRow) (chainId : Nat) (n : Nat) :
    covers (matchingRows (compactFragment db f) chainId g) n =
      covers (matchingRows db chainId g) n := by
  rw [matchingRows_eq_filterMap (compactFragment db f) chainId g,
    matchingRows_eq_filterMap db chainId g,
    compactFragment_rows, compactFragment_filters, List.filterMap_append]
  have hothers : (db.logFilterIntervals.filter
      (fun r => ! decide (r.logFilterId = f.id))).filterMap
        (ownerKeep (upsertLogFilter db.logFilters f) chainId g) =
      (db.logFilterIntervals.filter
        (fun r => ! decide (r.logFilterId = f.id))).filterMap
          (ownerKeep db.logFilters chainId g) := by
    apply List.filterMap_congr
    intro r hr
    have hne : r.logFilterId ≠ f.id := by simpa using List.of_mem_filter hr
    exact ownerKeep_congr _ _ chainId g r
      (find?_upsert_ne db.logFilters f r.logFilterId hdet hne)
  rw [hothers, covers_append]
  have hperm := (List.filter_append_perm (fun r => decide (r.logFilterId = f.id))
      db.logFilterIntervals).filterMap (ownerKeep db.logFilters chainId g)
  rw [← covers_of_perm hperm n, List.filterMap_append, covers_append]
  by_cases hcond : f.chainId = chainId ∧ fragmentMatchesRow g f = true
  · have hmerged : ((intervalUnion ((db.logFilterIntervals.filter
        (fun r => decide (r.logFilterId = f.id))).map rowPair)).map
          (fun p => (⟨f.id, p.1, p.2⟩ : FilterIntervalRow))).filterMap
            (ownerKeep (upsertLogFilter db.logFilters f) chainId g) =
        ((intervalUnion ((db.logFilterIntervals.filter
          (fun r => decide (r.logFilterId = f.id))).map rowPair)).map
            (fun p => (⟨f.id, p.1, p.2⟩ : FilterIntervalRow))).map rowPair := by
      apply filterMap_congr_some
      intro r hr
      rcases List.mem_map.mp hr with ⟨p, hp, rfl⟩
      rw [ownerKeep_eq_of_find? _ chainId g _ f
        (find?_upsert_self db.logFilters f hdet), if_pos hcond]
    have hown : (db.logFilterIntervals.filter
        (fun r => decide (r.logFilterId = f.id))).filterMap
          (ownerKeep db.logFilters chainId g) =
        (db.logFilterIntervals.filter
          (fun r => decide (r.logFilterId = f.id))).map rowPair := by
      apply filterMap_congr_some
      intro r hr
      have hid : r.logFilterId = f.id := by simpa using List.of_mem_filter hr
      rw [ownerKeep_eq_of_find? _ chainId g _ f
        (find?_det_eq db.logFilters f r.logFilterId
          (href r (List.mem_of_mem_filter hr)) hid hdet), if_pos hcond]
    rw [hmerged, hown, List.map_map]
    have hcollapse : (rowPair ∘ fun p => (⟨f.id, p.1, p.2⟩ : FilterIntervalRow)) =
        fun p : Iv => p := by
      funext p
      simp [rowPair]
    rw [hcollapse, List.map_id', intervalUnion_covers, Bool.or_comm]
  · have hmerged : ((intervalUnion ((db.logFilterIntervals.filter
        (fun r => decide (r.logFilterId = f.id))).map rowPair)).map
          (fun p => (⟨f.id, p.1, p.2⟩ : FilterIntervalRow))).filterMap
            (ownerKeep (upsertLogFilter db.logFilters f) chainId g) = [] := by
      apply filterMap_congr_none
      intro r hr
      rcases List.mem_map.mp hr with ⟨p, hp, rfl⟩
      rw [ownerKeep_eq_of_find? _ chainId g _ f
        (find?_upsert_self db.logFilters f hdet), if_neg hcond]
    have hown : (db.logFilterIntervals.filter
        (fun r => decide (r.logFilterId = f.id))).filterMap
          (ownerKeep db.logFilters chainId g) = [] := by
      apply filterMap_congr_none
      intro r hr
      have hid : r.logFilterId = f.id := by simpa using List.of_mem_filter hr
      rw [ownerKeep_eq_of_find? _ chainId g _ f
        (find?_det_eq db.logFilters f r.logFilterId
          (href r (List.mem_of_mem_filter hr)) hid hdet), if_neg hcond]
    rw [hmerged, hown]
    simp [covers]

theorem upsert_det_preserved (filters : List LogFilterRow) (f g : LogFilterRow)
    (hdetf : ∀ ℓ ∈ filters, ℓ.id = f.id → ℓ = f)
    (hdetg : ∀ ℓ ∈ filters, ℓ.id = g.id → ℓ = g) (hne : f.id ≠ g.id) :
    ∀ ℓ ∈ upsertLogFilter filters f, ℓ.id = g.id → ℓ = g := by
  intro ℓ hℓ he
  rcases mem_upsert_cases filters f hdetf ℓ hℓ with h | rfl
  · exact hdetg ℓ h he
  · exact absurd he hne

/-- The whole compaction fold: coverage of the SELECT is preserved, the
rows stay well formed, every processed fragment's rows end up in the
canonical merged form computed from the original store, and rows of
untouched ids are untouched. -/
theorem foldl_compactFragment_spec (fragments : List LogFilterRow) :
    ∀ db : FilterDb,
      (∀ r ∈ db.logFilterIntervals, r.startBlock ≤ r.endBlock) →
      (∀ r ∈ db.logFilterIntervals, ∃ ℓ ∈ db.logFilters, ℓ.id = r.logFilterId) →
      (∀ g ∈ fragments, ∀ ℓ ∈ db.logFilters, ℓ.id = g.id → ℓ = g) →
      fragments.Pairwise (fun a b => a.id ≠ b.id) →
      (∀ (g : LogFilterRow) (chainId n : Nat),
          covers (matchingRows (fragments.foldl compactFragment db) chainId g) n =
            covers (matchingRows db chainId g) n) ∧
      (∀ r ∈ (fragments.foldl compactFragment db).logFilterIntervals,
          r.startBlock ≤ r.endBlock) ∧
      (∀ f ∈ fragments,
          (fragments.foldl compactFragment db).logFilterIntervals.filter
              (fun r => decide (r.logFilterId = f.id)) =
            (intervalUnion (ownRowsIntervals db f)).map
              (fun p => (⟨f.id, p.1, p.2⟩ : FilterIntervalRow))) ∧
      (∀ fid : Nat, (∀ g ∈ fragments, fid ≠ g.id) →
          (fragments.foldl compactFragment db).logFilterIntervals.filter
              (fun r => decide (r.logFilterId = fid)) =
            db.logFilterIntervals.filter (fun r => decide (r.logFilterId = fid))) := by
  induction fragments with
  | nil =>
    intro db hwf href hdet hpw
    exact ⟨fun g c n => rfl, hwf, by simp, fun fid h => rfl⟩
  | cons f rest ih =>
    intro db hwf href hdet hpw
    have hdetf : ∀ ℓ ∈ db.logFilters, ℓ.id = f.id → ℓ = f :=
      hdet f (by simp)
    have hpwh : ∀ g ∈ rest, f.id ≠ g.id := (List.pairwise_cons.mp hpw).1
    have hpwt : rest.Pairwise (fun a b => a.id ≠ b.id) := (List.pairwise_cons.mp hpw).2
    have hwf1 := compactFragment_wf db f hwf
    have href1 := compactFragment_ref db f href hdetf
    have hdet1 : ∀ g ∈ rest, ∀ ℓ ∈ (compactFragment db f).logFilters,
        ℓ.id = g.id → ℓ = g := by
      intro g hg
      rw [compactFragment_filters]
      exact upsert_det_preserved db.logFilters f g hdetf
        (hdet g (by simp [hg])) (hpwh g hg)
    obtain ⟨ihcov, ihwf, ihself, ihne⟩ :=
      ih (compactFragment db f) hwf1 href1 hdet1 hpwt
    have hfold : (f :: rest).foldl compactFragment db =
        rest.foldl compactFragment (compactFragment db f) := rfl
    rw [hfold]
    refine ⟨?_, ihwf, ?_, ?_⟩
    · intro g chainId n
      rw [ihcov g chainId n]
      exact compactFragment_covers db f href hdetf g chainId n
    · intro f' hf'
      rcases List.mem_cons.mp hf' with rfl | hf'
      · rw [ihne f'.id (fun g hg => hpwh g hg), compactFragment_filter_self]
      · rw [ihself f' hf']
        have hne : f'.id ≠ f.id := fun h => hpwh f' hf' h.symm
        have : ownRowsIntervals (compactFragment db f) f' = ownRowsIntervals db f' := by
          unfold ownRowsIntervals
          rw [compactFragment_filter_ne db f f'.id hne]
        rw [this]
    · intro fid hfid
      rw [ihne fid (fun g hg => hfid g (by simp [hg])),
        compactFragment_filter_ne db f fid (hfid f (by simp))]

/-- C7 (amended): under well-formed stored rows, referential integrity,
fragment-id determinism (a stored filter row carrying a fragment's id
equals that fragment — ids are content fingerprints) and distinct fragment
ids, `getLogFilterIntervals` returns the intersection over the fragments of
the union of ALL stored interval rows whose owning filter row matches the
fragment under the null-or-equal join on the query's chain — not only the
fragment's own rows — and the compaction pass leaves each fragment's rows
in the canonical merged form of its original rows without changing the
result. -/
theorem getLogFilterIntervals_matching_rows (db : FilterDb) (chainId : Nat)
    (fragments : List LogFilterRow)
    (hwf : ∀ r ∈ db.logFilterIntervals, r.startBlock ≤ r.endBlock)
    (href : ∀ r ∈ db.logFilterIntervals, ∃ ℓ ∈ db.logFilters, ℓ.id = r.logFilterId)
    (hdet : ∀ g ∈ fragments, ∀ ℓ ∈ db.logFilters, ℓ.id = g.id → ℓ = g)
    (hpw : fragments.Pairwise (fun a b => a.id ≠ b.id)) :
    (getLogFilterIntervals db chainId fragments).1 =
      intervalIntersectionMany
        (fragments.map (fun g => intervalUnion (matchingRows db chainId g))) ∧
    ∀ f ∈ fragments,
      ((getLogFilterIntervals db chainId fragments).2.logFilterIntervals.filter
          (fun r => decide (r.logFilterId = f.id))).map rowPair =
        intervalUnion (ownRowsIntervals db f) := by
  obtain ⟨hcov, hwf2, hself, -⟩ := foldl_compactFragment_spec fragments db hwf href hdet hpw
  constructor
  · show intervalIntersectionMany
        (fragments.map (fun g => intervalUnion
          (matchingRows (fragments.foldl compactFragment db) chainId g))) = _
    congr 1
    apply List.map_congr_left
    intro g hg
    exact intervalUnion_eq_of_covers (matchingRows_wf hwf2) (matchingRows_wf hwf)
      (fun n => hcov g chainId n)
  · intro f hf
    show ((fragments.foldl compactFragment db).logFilterIntervals.filter
        (fun r => decide (r.logFilterId = f.id))).map rowPair = _
    rw [hself f hf, List.map_map]
    have hcollapse : (rowPair ∘ fun p => (⟨f.id, p.1, p.2⟩ : FilterIntervalRow)) =
        fun p : Iv => p := by
      funext p
      simp [rowPair]
    rw [hcollapse, List.map_id']

/-- A store with one filter row (equal to the queried fragment) and three
interval rows of that fragment, two of them overlapping. -/
def witnessFilterDb : FilterDb :=
  ⟨[⟨7, 1, some 10, none, none, none, none⟩],
    [⟨7, 0, 10⟩, ⟨7, 5, 20⟩, ⟨7, 30, 40⟩]⟩

/-- The queried fragment of the witness store. -/
def witnessFragment : LogFilterRow := ⟨7, 1, some 10, none, none, none, none⟩

theorem getLogFilterIntervals_matching_rows_witness :
    (getLogFilterIntervals witnessFilterDb 1 [witnessFragment]).1 =
        intervalIntersectionMany
          ([witnessFragment].map
            (fun g => intervalUnion (matchingRows witnessFilterDb 1 g))) ∧
      ∀ f ∈ [witnessFragment],
        ((getLogFilterIntervals witnessFilterDb 1
              [witnessFragment]).2.logFilterIntervals.filter
            (fun r => decide (r.logFilterId = f.id))).map rowPair =
          intervalUnion (ownRowsIntervals witnessFilterDb f) :=
  getLogFilterIntervals_matching_rows witnessFilterDb 1 [witnessFragment]
    (by decide) (by decide) (by decide) (by decide)

/-! ### Sync store: deleteRealtimeData (C8, C10)

Embedding of `PostgresSyncStore.deleteRealtimeData`: one transaction that
deletes the chain's blocks, transactions, logs and rpc-cache rows above
`fromBlock`, then for each interval table deletes rows with
`startBlock > fromBlock` and clamps rows with `endBlock > fromBlock` to
`fromBlock`, where a row's chain is resolved through the owning filter or
factory row (`select chainId ... where id = ... limit 1`). -/

/-- A row of the `blocks` table (the fields the function touches). -/
structure BlockRow where
  chainId : Nat
  number : Nat
  hash : Nat
  deriving DecidableEq, Repr

/-- A row of the `transactions` table. -/
structure TransactionRow where
  chainId : Nat
  blockNumber : Nat
  hash : Nat
  deriving DecidableEq, Repr

/-- A row of the `logs` table. -/
structure LogRow where
  chainId : Nat
  blockNumber : Nat
  logIndex : Nat
  deriving DecidableEq, Repr

/-- A row of the `rpcRequestResults` table. -/
structure RpcRequestRow where
  chainId : Nat
  blockNumber : Nat
  request : Nat
  result : Nat
  deriving DecidableEq, Repr

/-- A row of the `factories` table. -/
structure FactoryRow where
  id : Nat
  chainId : Nat
  address : Nat
  eventSelector : Nat
  childAddressLocation : Nat
  deriving DecidableEq, Repr

/-- A row of the `factoryLogFilterIntervals` table. -/
structure FactoryIntervalRow where
  factoryId : Nat
  startBlock : Nat
  endBlock : Nat
  deriving DecidableEq, Repr

/-- The sync store state that `deleteRealtimeData` touches. -/
structure SyncDb where
  blocks : List BlockRow
  transactions : List TransactionRow
  logs : List LogRow
  rpcRequestResults : List RpcRequestRow
  logFilters : List LogFilterRow
  logFilterIntervals : List FilterIntervalRow
  factories : List FactoryRow
  factoryLogFilterIntervals : List FactoryIntervalRow
  deriving DecidableEq, Repr

/-- The subquery `(select chainId from logFilters where id = logFilterId
limit 1) = chainId`: false when no owner row exists (SQL NULL compares
false). -/
def intervalOwnerChainEq (filters : List LogFilterRow) (r : FilterIntervalRow)
    (chainId : Nat) : Bool :=
  match filters.find? (fun ℓ => decide (ℓ.id = r.logFilterId)) with
  | some owner => decide (owner.chainId = chainId)
  | none => false

/-- The same subquery against the `factories` table. -/
def factoryIntervalOwnerChainEq (factories : List FactoryRow) (r : FactoryIntervalRow)
    (chainId : Nat) : Bool :=
  match factories.find? (fun ℓ => decide (ℓ.id = r.factoryId)) with
  | some owner => decide (owner.chainId = chainId)
  | none => false

/-- Translated from `PostgresSyncStore.deleteRealtimeData`. -/
def deleteRealtimeData (db : SyncDb) (chainId fromBlock : Nat) : SyncDb :=
  { blocks := db.blocks.filter (fun b =>
      ! (decide (b.chainId = chainId) && decide (fromBlock < b.number)))
    transactions := db.transactions.filter (fun t =>
      ! (decide (t.chainId = chainId) && decide (fromBlock < t.blockNumber)))
    logs := db.logs.filter (fun l =>
      ! (decide (l.chainId = chainId) && decide (fromBlock < l.blockNumber)))
    rpcRequestResults := db.rpcRequestResults.filter (fun r =>
      ! (decide (r.chainId = chainId) && decide (fromBlock < r.blockNumber)))
    logFilters := db.logFilters
    logFilterIntervals :=
      (db.logFilterIntervals.filter (fun r =>
          ! (intervalOwnerChainEq db.logFilters r chainId &&
            decide (fromBlock < r.startBlock)))).map (fun r =>
        if intervalOwnerChainEq db.logFilters r chainId &&
            decide (fromBlock < r.endBlock) then
          { r with endBlock := fromBlock }
        else r)
    factories := db.factories
    factoryLogFilterIntervals :=
      (db.factoryLogFilterIntervals.filter (fun r =>
          ! (factoryIntervalOwnerChainEq db.factories r chainId &&
            decide (fromBlock < r.startBlock)))).map (fun r =>
        if factoryIntervalOwnerChainEq db.factories r chainId &&
            decide (fromBlock < r.endBlock) then
          { r with endBlock := fromBlock }
        else r) }

theorem intervalOwnerChainEq_set_endBlock (filters : List LogFilterRow)
    (r : FilterIntervalRow) (chainId v : Nat) :
    intervalOwnerChainEq filters { r with endBlock := v } chainId =
      intervalOwnerChainEq filters r chainId := rfl

theorem factoryIntervalOwnerChainEq_set_endBlock (factories : List FactoryRow)
    (r : FactoryIntervalRow) (chainId v : Nat) :
    factoryIntervalOwnerChainEq factories { r with endBlock := v } chainId =
      factoryIntervalOwnerChainEq factories r chainId := rfl

theorem intervalOwnerChainEq_unique (filters : List LogFilterRow)
    (r : FilterIntervalRow) (c1 c2 : Nat) (hne : c1 ≠ c2)
    (h : intervalOwnerChainEq filters r c1 = true) :
    intervalOwnerChainEq filters r c2 = false := by
  unfold intervalOwnerChainEq at h ⊢
  rcases hfind : filters.find? (fun ℓ => decide (ℓ.id = r.logFilterId)) with _ | owner
  · rw [hfind]
  · rw [hfind] at h ⊢
    dsimp only at h ⊢
    simp only [decide_eq_true_eq] at h
    simp only [decide_eq_false_iff_not]
    omega

theorem factoryIntervalOwnerChainEq_unique (factories : List FactoryRow)
    (r : FactoryIntervalRow) (c1 c2 : Nat) (hne : c1 ≠ c2)
    (h : factoryIntervalOwnerChainEq factories r c1 = true) :
    factoryIntervalOwnerChainEq factories r c2 = false := by
  unfold factoryIntervalOwnerChainEq at h ⊢
  rcases hfind : factories.find? (fun ℓ => decide (ℓ.id = r.factoryId)) with _ | owner
  · rw [hfind]
  · rw [hfind] at h ⊢
    dsimp only at h ⊢
    simp only [decide_eq_true_eq] at h
    simp only [decide_eq_false_iff_not]
    omega

theorem filter_map_invariant {α : Type} (fn : α → α) (p : α → Bool) (l : List α)
    (hp : ∀ a, p (fn a) = p a) (hfix : ∀ a, p a = true → fn a = a) :
    (l.map fn).filter p = l.filter p := by
  induction l with
  | nil => rfl
  | cons a t ih =>
    rw [List.map_cons, List.filter_cons, List.filter_cons, hp a]
    rcases hpa : p a with _ | _
    · simpa using ih
    · rw [hfix a hpa]
      simpa using ih

/-- C8: after `deleteRealtimeData(chainId, n)` no row of the blocks,
transactions, logs or rpcRequestResults tables for that chain has a block
number above `n`, and every logFilterIntervals and
factoryLogFilterIntervals row resolving (through its owning filter or
factory row) to that chain has `startBlock ≤ n` and `endBlock ≤ n`. -/
theorem deleteRealtimeData_bounds (db : SyncDb) (chainId n : Nat) :
    (∀ b ∈ (deleteRealtimeData db chainId n).blocks,
        b.chainId = chainId → b.number ≤ n) ∧
    (∀ t ∈ (deleteRealtimeData db chainId n).transactions,
        t.chainId = chainId → t.blockNumber ≤ n) ∧
    (∀ l ∈ (deleteRealtimeData db chainId n).logs,
        l.chainId = chainId → l.blockNumber ≤ n) ∧
    (∀ r ∈ (deleteRealtimeData db chainId n).rpcRequestResults,
        r.chainId = chainId → r.blockNumber ≤ n) ∧
    (∀ r ∈ (deleteRealtimeData db chainId n).logFilterIntervals,
        intervalOwnerChainEq (deleteRealtimeData db chainId n).logFilters r chainId = true →
          r.startBlock ≤ n ∧ r.endBlock ≤ n) ∧
    (∀ r ∈ (deleteRealtimeData db chainId n).factoryLogFilterIntervals,
        factoryIntervalOwnerChainEq (deleteRealtimeData db chainId n).factories r
            chainId = true →
          r.startBlock ≤ n ∧ r.endBlock ≤ n) := by
  refine ⟨?_, ?_, ?_, ?_, ?_, ?_⟩
  · intro b hb hc
    have := List.of_mem_filter hb
    simp only [Bool.not_eq_true', Bool.and_eq_false_iff, decide_eq_false_iff_not] at this
    rcases this with h | h
    · exact absurd hc h
    · omega
  · intro t ht hc
    have := List.of_mem_filter ht
    simp only [Bool.not_eq_true', Bool.and_eq_false_iff, decide_eq_false_iff_not] at this
    rcases this with h | h
    · exact absurd hc h
    · omega
  · intro l hl hc
    have := List.of_mem_filter hl
    simp only [Bool.not_eq_true', Bool.and_eq_false_iff, decide_eq_false_iff_not] at this
    rcases this with h | h
    · exact absurd hc h
    · omega
  · intro r hr hc
    have := List.of_mem_filter hr
    simp only [Bool.not_eq_true', Bool.and_eq_false_iff, decide_eq_false_iff_not] at this
    rcases this with h | h
    · exact absurd hc h
    · omega
  · intro r hr hown
    have hproj : (deleteRealtimeData db chainId n).logFilters = db.logFilters := rfl
    rw [hproj] at hown
    rcases List.mem_map.mp hr with ⟨r0, hr0, rfl⟩
    have hkeep := List.of_mem_filter hr0
    simp only [Bool.not_eq_true', Bool.and_eq_false_iff] at hkeep
    by_cases hc : (intervalOwnerChainEq db.logFilters r0 chainId &&
        decide (n < r0.endBlock)) = true
    · rw [if_pos hc] at hown ⊢
      rw [intervalOwnerChainEq_set_endBlock] at hown
      rcases hkeep with h | h
      · rw [hown] at h
        exact absurd h (by simp)
      · simp only [decide_eq_false_iff_not] at h
        exact ⟨by dsimp only; omega, by dsimp only; omega⟩
    · rw [if_neg hc] at hown ⊢
      simp only [Bool.and_eq_true, decide_eq_true_eq, not_and] at hc
      rcases hkeep with h | h
      · rw [hown] at h
        exact absurd h (by simp)
      · simp only [decide_eq_false_iff_not] at h
        have h2 := hc hown
        exact ⟨by omega, by omega⟩
  · intro r hr hown
    have hproj : (deleteRealtimeData db chainId n).factories = db.factories := rfl
    rw [hproj] at hown
    rcases List.mem_map.mp hr with ⟨r0, hr0, rfl⟩
    have hkeep := List.of_mem_filter hr0
    simp only [Bool.not_eq_true', Bool.and_eq_false_iff] at hkeep
    by_cases hc : (factoryIntervalOwnerChainEq db.factories r0 chainId &&
        decide (n < r0.endBlock)) = true
    · rw [if_pos hc] at hown ⊢
      rw [factoryIntervalOwnerChainEq_set_endBlock] at hown
      rcases hkeep with h | h
      · rw [hown] at h
        exact absurd h (by simp)
      · simp only [decide_eq_false_iff_not] at h
        exact ⟨by dsimp only; omega, by dsimp only; omega⟩
    · rw [if_neg hc] at hown ⊢
      simp only [Bool.and_eq_true, decide_eq_true_eq, not_and] at hc
      rcases hkeep with h | h
      · rw [hown] at h
        exact absurd h (by simp)
      · simp only [decide_eq_false_iff_not] at h
        have h2 := hc hown
        exact ⟨by omega, by omega⟩

/-- A concrete store for the delete witnesses: two chains, one filter and
one factory per chain, rows straddling block 100 on both chains. -/
def witnessSyncDb : SyncDb :=
  { blocks := [⟨1, 90, 0⟩, ⟨1, 150, 1⟩, ⟨2, 150, 2⟩]
    transactions := [⟨1, 90, 0⟩, ⟨1, 150, 1⟩, ⟨2, 150, 2⟩]
    logs := [⟨1, 90, 0⟩, ⟨1, 150, 1⟩, ⟨2, 150, 2⟩]
    rpcRequestResults := [⟨1, 90, 0, 0⟩, ⟨1, 150, 0, 0⟩, ⟨2, 150, 0, 0⟩]
    logFilters := [⟨11, 1, none, none, none, none, none⟩,
      ⟨21, 2, none, none, none, none, none⟩]
    logFilterIntervals := [⟨11, 0, 90⟩, ⟨11, 50, 150⟩, ⟨11, 120, 150⟩, ⟨21, 120, 150⟩]
    factories := [⟨12, 1, 0, 0, 0⟩, ⟨22, 2, 0, 0, 0⟩]
    factoryLogFilterIntervals := [⟨12, 50, 150⟩, ⟨12, 120, 150⟩, ⟨22, 120, 150⟩] }

theorem deleteRealtimeData_bounds_witness :
    (∀ b ∈ (deleteRealtimeData witnessSyncDb 1 100).blocks,
        b.chainId = 1 → b.number ≤ 100) ∧
    (∀ t ∈ (deleteRealtimeData witnessSyncDb 1 100).transactions,
        t.chainId = 1 → t.blockNumber ≤ 100) ∧
    (∀ l ∈ (deleteRealtimeData witnessSyncDb 1 100).logs,
        l.chainId = 1 → l.blockNumber ≤ 100) ∧
    (∀ r ∈ (deleteRealtimeData witnessSyncDb 1 100).rpcRequestResults,
        r.chainId = 1 → r.blockNumber ≤ 100) ∧
    (∀ r ∈ (deleteRealtimeData witnessSyncDb 1 100).logFilterIntervals,
        intervalOwnerChainEq (deleteRealtimeData witnessSyncDb 1 100).logFilters r 1 = true →
          r.startBlock ≤ 100 ∧ r.endBlock ≤ 100) ∧
    (∀ r ∈ (deleteRealtimeData witnessSyncDb 1 100).factoryLogFilterIntervals,
        factoryIntervalOwnerChainEq (deleteRealtimeData witnessSyncDb 1 100).factories r
            1 = true →
          r.startBlock ≤ 100 ∧ r.endBlock ≤ 100) :=
  deleteRealtimeData_bounds witnessSyncDb 1 100

theorem deleteRealtimeData_logFilterIntervals (db : SyncDb) (chainId fromBlock : Nat) :
    (deleteRealtimeData db chainId fromBlock).logFilterIntervals =
      (db.logFilterIntervals.filter (fun r =>
          ! (intervalOwnerChainEq db.logFilters r chainId &&
            decide (fromBlock < r.startBlock)))).map (fun r =>
        if intervalOwnerChainEq db.logFilters r chainId &&
            decide (fromBlock < r.endBlock) then
          { r with endBlock := fromBlock }
        else r) := rfl

theorem deleteRealtimeData_factoryIntervals (db : SyncDb) (chainId fromBlock : Nat) :
    (deleteRealtimeData db chainId fromBlock).factoryLogFilterIntervals =
      (db.factoryLogFilterIntervals.filter (fun r =>
          ! (factoryIntervalOwnerChainEq db.factories r chainId &&
            decide (fromBlock < r.startBlock)))).map (fun r =>
        if factoryIntervalOwnerChainEq db.factories r chainId &&
            decide (fromBlock < r.endBlock) then
          { r with endBlock := fromBlock }
        else r) := rfl

/-- C10: `deleteRealtimeData(chainId, fromBlock)` leaves every other
chain's rows untouched: for any chain `c ≠ chainId` the sub-list of rows of
chain `c` in each of the six tables is unchanged, and the filter and
factory tables themselves are untouched. -/
theorem deleteRealtimeData_frame (db : SyncDb) (chainId fromBlock c : Nat)
    (hne : c ≠ chainId) :
    ((deleteRealtimeData db chainId fromBlock).blocks.filter
        (fun b => decide (b.chainId = c)) =
      db.blocks.filter (fun b => decide (b.chainId = c))) ∧
    ((deleteRealtimeData db chainId fromBlock).transactions.filter
        (fun t => decide (t.chainId = c)) =
      db.transactions.filter (fun t => decide (t.chainId = c))) ∧
    ((deleteRealtimeData db chainId fromBlock).logs.filter
        (fun l => decide (l.chainId = c)) =
      db.logs.filter (fun l => decide (l.chainId = c))) ∧
    ((deleteRealtimeData db chainId fromBlock).rpcRequestResults.filter
        (fun r => decide (r.chainId = c)) =
      db.rpcRequestResults.filter (fun r => decide (r.chainId = c))) ∧
    ((deleteRealtimeData db chainId fromBlock).logFilterIntervals.filter
        (fun r => intervalOwnerChainEq db.logFilters r c) =
      db.logFilterIntervals.filter (fun r => intervalOwnerChainEq db.logFilters r c)) ∧
    ((deleteRealtimeData db chainId fromBlock).factoryLogFilterIntervals.filter
        (fun r => factoryIntervalOwnerChainEq db.factories r c) =
      db.factoryLogFilterIntervals.filter
        (fun r => factoryIntervalOwnerChainEq db.factories r c)) ∧
    (deleteRealtimeData db chainId fromBlock).logFilters = db.logFilters ∧
    (deleteRealtimeData db chainId fromBlock).factories = db.factories := by
  refine ⟨?_, ?_, ?_, ?_, ?_, ?_, rfl, rfl⟩
  · apply filter_filter_imp
    intro b hb
    simp only [decide_eq_true_eq] at hb
    simp only [Bool.not_eq_true', Bool.and_eq_false_iff, decide_eq_false_iff_not]
    exact Or.inl (by omega)
  · apply filter_filter_imp
    intro t ht
    simp only [decide_eq_true_eq] at ht
    simp only [Bool.not_eq_true', Bool.and_eq_false_iff, decide_eq_false_iff_not]
    exact Or.inl (by omega)
  · apply filter_filter_imp
    intro l hl
    simp only [decide_eq_true_eq] at hl
    simp only [Bool.not_eq_true', Bool.and_eq_false_iff, decide_eq_false_iff_not]
    exact Or.inl (by omega)
  · apply filter_filter_imp
    intro r hr
    simp only [decide_eq_true_eq] at hr
    simp only [Bool.not_eq_true', Bool.and_eq_false_iff, decide_eq_false_iff_not]
    exact Or.inl (by omega)
  · have hstep : ((db.logFilterIntervals.filter (fun r =>
        ! (intervalOwnerChainEq db.logFilters r chainId &&
          decide (fromBlock < r.startBlock)))).map (fun r =>
          if intervalOwnerChainEq db.logFilters r chainId &&
              decide (fromBlock < r.endBlock) then
            { r with endBlock := fromBlock }
          else r)).filter (fun r => intervalOwnerChainEq db.logFilters r c) =
        (db.logFilterIntervals.filter (fun r =>
          ! (intervalOwnerChainEq db.logFilters r chainId &&
            decide (fromBlock < r.startBlock)))).filter
              (fun r => intervalOwnerChainEq db.logFilters r c) := by
      apply filter_map_invariant
      · intro a
        by_cases hc2 : (intervalOwnerChainEq db.logFilters a chainId &&
            decide (fromBlock < a.endBlock)) = true
        · rw [if_pos hc2, intervalOwnerChainEq_set_endBlock]
        · rw [if_neg hc2]
      · intro a ha
        have hfalse := intervalOwnerChainEq_unique db.logFilters a c chainId hne ha
        rw [if_neg]
        simp [hfalse]
    rw [deleteRealtimeData_logFilterIntervals, hstep]
    apply filter_filter_imp
    intro a ha
    have hfalse := intervalOwnerChainEq_unique db.logFilters a c chainId hne ha
    simp [hfalse]
  · have hstep : ((db.factoryLogFilterIntervals.filter (fun r =>
        ! (factoryIntervalOwnerChainEq db.factories r chainId &&
          decide (fromBlock < r.startBlock)))).map (fun r =>
          if factoryIntervalOwnerChainEq db.factories r chainId &&
              decide (fromBlock < r.endBlock) then
            { r with endBlock := fromBlock }
          else r)).filter (fun r => factoryIntervalOwnerChainEq db.factories r c) =
        (db.factoryLogFilterIntervals.filter (fun r =>
          ! (factoryIntervalOwnerChainEq db.factories r chainId &&
            decide (fromBlock < r.startBlock)))).filter
              (fun r => factoryIntervalOwnerChainEq db.factories r c) := by
      apply filter_map_invariant
      · intro a
        by_cases hc2 : (factoryIntervalOwnerChainEq db.factories a chainId &&
            decide (fromBlock < a.endBlock)) = true
        · rw [if_pos hc2, factoryIntervalOwnerChainEq_set_endBlock]
        · rw [if_neg hc2]
      · intro a ha
        have hfalse := factoryIntervalOwnerChainEq_unique db.factories a c chainId hne ha
        rw [if_neg]
        simp [hfalse]
    rw [deleteRealtimeData_factoryIntervals, hstep]
    apply filter_filter_imp
    intro a ha
    have hfalse := factoryIntervalOwnerChainEq_unique db.factories a c chainId hne ha
    simp [hfalse]

theorem deleteRealtimeData_frame_witness :
    ((deleteRealtimeData witnessSyncDb 1 100).blocks.filter
        (fun b => decide (b.chainId = 2)) =
      witnessSyncDb.blocks.filter (fun b => decide (b.chainId = 2))) ∧
    ((deleteRealtimeData witnessSyncDb 1 100).transactions.filter
        (fun t => decide (t.chainId = 2)) =
      witnessSyncDb.transactions.filter (fun t => decide (t.chainId = 2))) ∧
    ((deleteRealtimeData witnessSyncDb 1 100).logs.filter
        (fun l => decide (l.chainId = 2)) =
      witnessSyncDb.logs.filter (fun l => decide (l.chainId = 2))) ∧
    ((deleteRealtimeData witnessSyncDb 1 100).rpcRequestResults.filter
        (fun r => decide (r.chainId = 2)) =
      witnessSyncDb.rpcRequestResults.filter (fun r => decide (r.chainId = 2))) ∧
    ((deleteRealtimeData witnessSyncDb 1 100).logFilterIntervals.filter
        (fun r => intervalOwnerChainEq witnessSyncDb.logFilters r 2) =
      witnessSyncDb.logFilterIntervals.filter
        (fun r => intervalOwnerChainEq witnessSyncDb.logFilters r 2)) ∧
    ((deleteRealtimeData witnessSyncDb 1 100).factoryLogFilterIntervals.filter
        (fun r => factoryIntervalOwnerChainEq witnessSyncDb.factories r 2) =
      witnessSyncDb.factoryLogFilterIntervals.filter
        (fun r => factoryIntervalOwnerChainEq witnessSyncDb.factories r 2)) ∧
    (deleteRealtimeData witnessSyncDb 1 100).logFilters = witnessSyncDb.logFilters ∧
    (deleteRealtimeData witnessSyncDb 1 100).factories = witnessSyncDb.factories :=
  deleteRealtimeData_frame witnessSyncDb 1 100 2 (by decide)

/-! ### Sync store: getFactoryChildAddresses (C9)

Embedding of the async generator `getFactoryChildAddresses`: a base SELECT
over `logs` filtered by chain, factory address, event selector and
`blockNumber <= upToBlockNumber` with `LIMIT pageSize` and NO ORDER BY,
then a cursor loop (`where blockNumber > cursor` once the cursor is
truthy) that yields each non-empty batch's child addresses and stops when
a batch comes back smaller than the page size. -/

/-- A row of the `logs` table as the factory-child query reads it: the
`childAddress` field stands for the substring expression the SELECT
computes from the log's data or topics. -/
structure FactoryLogRow where
  chainId : Nat
  address : Nat
  topic0 : Nat
  blockNumber : Nat
  childAddress : Nat
  deriving DecidableEq, Repr

/-- The WHERE clauses of the base query. -/
def factoryLogMatches (chainId : Nat) (factory : FactoryRow)
    (upToBlockNumber : Nat) (r : FactoryLogRow) : Bool :=
  decide (r.chainId = chainId) && decide (r.address = factory.address) &&
    decide (r.topic0 = factory.eventSelector) &&
    decide (r.blockNumber ≤ upToBlockNumber)

/-- JS truthiness of the cursor (`if (cursor)`): undefined and 0n are
falsy. -/
def cursorTruthy : Option Nat → Bool
  | none => false
  | some c => decide (c ≠ 0)

/-- One executed page: the base WHERE clauses plus, when the cursor is
truthy, `blockNumber > cursor`, then `LIMIT pageSize` — taken in stored
table order because the query has no ORDER BY. -/
def factoryPage (rows : List FactoryLogRow) (chainId : Nat) (factory : FactoryRow)
    (upToBlockNumber pageSize : Nat) (cursor : Option Nat) : List FactoryLogRow :=
  (rows.filter (fun r => factoryLogMatches chainId factory upToBlockNumber r &&
      (if cursorTruthy cursor then decide (cursor.getD 0 < r.blockNumber)
        else true))).take pageSize

/-- The generator loop, fuel-bounded: returns the list of yielded batches. -/
def getFactoryChildAddressesGo (rows : List FactoryLogRow) (chainId : Nat)
    (factory : FactoryRow) (upToBlockNumber pageSize : Nat) :
    Nat → Option Nat → List (List Nat)
  | 0, _ => []
  | fuel + 1, cursor =>
    let batch := factoryPage rows chainId factory upToBlockNumber pageSize cursor
    let cursor2 := match batch.getLast? with
      | some lastRow => some lastRow.blockNumber
      | none => cursor
    let yielded := if batch.length > 0 then [batch.map (fun r => r.childAddress)]
      else []
    if batch.length < pageSize then yielded
    else yielded ++
      getFactoryChildAddressesGo rows chainId factory upToBlockNumber pageSize
        fuel cursor2

/-- Translated from `PostgresSyncStore.getFactoryChildAddresses`; the fuel
bounds the number of loop iterations. -/
def getFactoryChildAddresses (rows : List FactoryLogRow) (chainId : Nat)
    (factory : FactoryRow) (upToBlockNumber pageSize : Nat) : List (List Nat) :=
  getFactoryChildAddressesGo rows chainId factory upToBlockNumber pageSize
    (rows.length + 1) none

/-- The failing input for C9: page size 1, two matching child logs stored
with the higher block number first (nothing orders the table). -/
def buggyFactoryRows : List FactoryLogRow :=
  [⟨1, 5, 9, 5, 55⟩, ⟨1, 5, 9, 1, 11⟩]

/-- The queried factory of the failing input. -/
def buggyFactory : FactoryRow := ⟨3, 1, 5, 9, 0⟩

/-- C9: the base query has no ORDER BY, so with the rows stored in
descending block order the first page returns the block-5 row, the cursor
jumps to 5, and the matching block-1 child is never yielded: the generator
produces [[55]] although the block-1 row satisfies every WHERE clause —
refuting both the ascending pagination and the completeness the claim
states. -/
theorem getFactoryChildAddresses_missing_child :
    getFactoryChildAddresses buggyFactoryRows 1 buggyFactory 10 1 = [[55]] ∧
      factoryLogMatches 1 buggyFactory 10 ⟨1, 5, 9, 1, 11⟩ = true ∧
      ∀ batch ∈ getFactoryChildAddresses buggyFactoryRows 1 buggyFactory 10 1,
        11 ∉ batch := by
  decide
